import Mathlib

/-!
Sparse planner (`descartes_core/src/sparse_planner.cpp`)

A shallow embedding of `SparsePlanner` and the properties of its sparse/dense
bookkeeping and refinement loop.

Conventions of the embedding

* `std::vector` and `std::list` are `List`; `std::map` is an association list whose
  entries are listed in iteration (key) order, looked up by first match.
* `double` is idealised as `ℚ`; `int` is `Int`.  Container sizes and the values
  computed from them are assumed to fit an `int`, so integer arithmetic does not wrap.
* A `TrajectoryPtPtr` is modelled by the value of the waypoint it points to.
* A result `none` of a function returning `Option` stands for a run that has no
  defined result: an out-of-range `operator[]`, `back()` of an empty vector, an
  undefined conversion, or (for loops run with explicit fuel) fuel that ran out.
* The base class `PlanningGraph` and the robot model are collaborators whose code is
  not part of this file: they are parameters (`PlanningGraph G`, `RobotModel`).
-/

namespace descartes_core

/-! ## Data model -/

/-- Identifier of a trajectory point (`TrajectoryPt::ID`, a uuid). -/
abbrev ID := Nat

/-- The reserved identifier `boost::uuids::nil_uuid()`. -/
def nil_uuid : ID := 0

/-- Source constant `MAX_REPLANNING_ATTEMPTS`. -/
def MAX_REPLANNING_ATTEMPTS : Nat := 100

/-- Source constant `INVALID_INDEX`. -/
def INVALID_INDEX : Int := -1

/-- Cartesian waypoint: its identifier and its own data (`geometry` stands for the
constraint the point carries; the planner never inspects it). -/
structure TrajectoryPt where
  id : ID
  geometry : Nat
deriving DecidableEq

/-- Joint point: built from a joint vector (`JointTrajectoryPt(aprox_interp)`). -/
structure JointTrajectoryPt where
  joints : List ℚ
deriving DecidableEq

/-- One entry of `SolutionArray`:
`std::tuple<int, TrajectoryPtPtr, JointTrajectoryPt>`. -/
abbrev SolutionEntry := Int × TrajectoryPt × JointTrajectoryPt

/-- The type `SolutionArray` (`std::vector` of entries). -/
abbrev SolutionArray := List SolutionEntry

/-- Links of a node of the graph's Cartesian map (`links_`). -/
structure CartesianPointRelationship where
  id_previous : ID
  id_next : ID
deriving DecidableEq

/-- Value type of the graph's Cartesian map. -/
structure CartesianPointInformation where
  links_ : CartesianPointRelationship
  source_trajectory_ : TrajectoryPt
deriving DecidableEq

/-- The graph's Cartesian map, entries in iteration order. -/
abbrev CartesianMap := List (ID × CartesianPointInformation)

/-- The member `joint_points_map_` (`std::map<ID, JointTrajectoryPt>`). -/
abbrev JointMap := List (ID × JointTrajectoryPt)

/-- Position of the first element satisfying `p` (`std::find_if` followed by
`std::distance`), `none` for `end()`. -/
def findIf {α : Type} (p : α → Bool) : List α → Option Nat
  | [] => none
  | x :: xs => if p x then some 0 else (findIf p xs).map (· + 1)

/-- Element access `v[i]` with an `int` index converted to `size_t`: defined
exactly for `0 ≤ i < v.size()`. -/
def at? {α : Type} (v : List α) (i : Int) : Option α :=
  if 0 ≤ i then v[i.toNat]? else none

/-- `std::map::count(k) > 0`. -/
def JointMap.contains (m : JointMap) (k : ID) : Bool :=
  m.any (fun p => p.1 == k)

/-- `std::map::insert`: a key already present keeps its value. -/
def JointMap.insert (m : JointMap) (k : ID) (v : JointTrajectoryPt) : JointMap :=
  if m.contains k then m else m ++ [(k, v)]

/-- `std::map::at` / `operator[]` on a present key. -/
def JointMap.find (m : JointMap) (k : ID) : Option JointTrajectoryPt :=
  (m.find? (fun p => p.1 == k)).map (·.2)

/-- `cart_map.count(id)` and `cart_map.at(id)` in one: the node stored under `id`. -/
def CartesianMap.node (m : CartesianMap) (id : ID) : Option CartesianPointInformation :=
  (m.find? (fun p => p.1 == id)).map (·.2)

/-! ## Index utilities -/

/-- `SparsePlanner::getDensePointIndex`. -/
def getDensePointIndex (cart_points_ : List TrajectoryPt) (ref_id : ID) : Int :=
  match findIf (fun cp => ref_id == cp.id) cart_points_ with
  | some pos => (pos : Int)
  | none => INVALID_INDEX

/-- `SparsePlanner::getSparsePointIndex`. -/
def getSparsePointIndex (sparse_solution_array_ : SolutionArray) (ref_id : ID) : Int :=
  match findIf (fun t => ref_id == t.2.1.id) sparse_solution_array_ with
  | some pos => (pos : Int)
  | none => INVALID_INDEX

/-- `SparsePlanner::isInSparseTrajectory`. -/
def isInSparseTrajectory (sparse_solution_array_ : SolutionArray) (ref_id : ID) : Bool :=
  (findIf (fun t => ref_id == t.2.1.id) sparse_solution_array_).isSome

/-- `SparsePlanner::findNearestSparsePointIndex`; both branches of the predicate
compare with `<`, as in the source. -/
def findNearestSparsePointIndex (cart_points_ : List TrajectoryPt)
    (sparse_solution_array_ : SolutionArray) (ref_id : ID) (skip_equal : Bool) : Int :=
  let dense_index := getDensePointIndex cart_points_ ref_id
  if dense_index = INVALID_INDEX then INVALID_INDEX
  else
    match findIf (fun t => if skip_equal then decide (dense_index < t.1)
                           else decide (dense_index < t.1)) sparse_solution_array_ with
    | some pos => (pos : Int)
    | none => INVALID_INDEX

/-! ## Ordered sparse Cartesian array -/

/-- The copy loop of `getOrderedSparseCartesianArray`: `n` iterations remain,
`current_id` is the node to copy next, `acc` the slots filled so far. -/
def orderedWalk (cart_map : CartesianMap) :
    Nat → ID → List TrajectoryPt → Option (List TrajectoryPt)
  | 0, _, acc => some acc
  | n + 1, current_id, acc =>
    match cart_map.node current_id with
    | none => none
    | some info => orderedWalk cart_map n info.links_.id_next (acc ++ [info.source_trajectory_])

/-- `SparsePlanner::getOrderedSparseCartesianArray`: `none` is `return false`,
`some a` is `return true` with `sparse_array = a`. -/
def getOrderedSparseCartesianArray (cart_map : CartesianMap) : Option (List TrajectoryPt) :=
  match cart_map.find? (fun p => p.2.links_.id_previous == nil_uuid) with
  | none => none
  | some p =>
    if p.1 = nil_uuid then none
    else orderedWalk cart_map cart_map.length p.1 []

/-! ## Sparse solution table rebuild -/

/-- The `for(auto& item : sparse_joint_points)` loop of `getSparseSolutionArray`.
The counter `i` is declared `0` before the loop and not changed in it, so every
iteration reads `sparse_cart_points[i]` with the same `i`.  The result is the
returned flag and the contents of `sparse_solution_array`. -/
def fillSolutionArray (cart_points_ : List TrajectoryPt) (sparse_cart_points : List TrajectoryPt)
    (i : Nat) : List JointTrajectoryPt → SolutionArray → Option (Bool × SolutionArray)
  | [], acc => some (true, acc)
  | jp :: rest, acc =>
    match sparse_cart_points[i]? with
    | none => none
    | some cp =>
      let index := getDensePointIndex cart_points_ cp.id
      if index = INVALID_INDEX then some (false, acc)
      else fillSolutionArray cart_points_ sparse_cart_points i rest (acc ++ [(index, cp, jp)])

/-- `SparsePlanner::getSparseSolutionArray`, given what `getShortestPath` returned
(`none` for `false`) and the graph's Cartesian map.  `sparse_solution_array` is the
in/out argument. -/
def getSparseSolutionArray (cart_points_ : List TrajectoryPt)
    (shortest_path : Option (List JointTrajectoryPt)) (cart_map : CartesianMap)
    (sparse_solution_array : SolutionArray) : Option (Bool × SolutionArray) :=
  match shortest_path with
  | none => some (false, sparse_solution_array)
  | some sparse_joint_points =>
    match getOrderedSparseCartesianArray cart_map with
    | none => some (false, sparse_solution_array)
    | some sparse_cart_points =>
      if sparse_joint_points.length ≠ sparse_cart_points.length then
        some (false, sparse_solution_array)
      else fillSolutionArray cart_points_ sparse_cart_points 0 sparse_joint_points []

/-! ## Solution lookup -/

/-- `SparsePlanner::getSolutionJointPoint`: `none` is `return false`, `some j` is
`return true` with the out-argument set to `j`. -/
def getSolutionJointPoint (joint_points_map_ : JointMap) (cart_id : ID) :
    Option JointTrajectoryPt :=
  if joint_points_map_.contains cart_id then joint_points_map_.find cart_id else none

/-! ## Sampler -/

/-- Conversion of a finite `double` to `int`: truncation toward zero. -/
def toInt (q : ℚ) : Int :=
  Int.tdiv q.num q.den

/-- The `for(int i = 0; i < dense.size(); i += skip)` loop of `sampleTrajectory`.
The comparison converts `i` to `size_t`, so a negative `i` ends the loop.  One unit
of fuel is spent per evaluation of the loop test. -/
def sampleLoop (dense_trajectory_array : List TrajectoryPt) (skip : Int) :
    Nat → Int → List TrajectoryPt → Option (List TrajectoryPt)
  | 0, _, _ => none
  | fuel + 1, i, sparse_trajectory_array =>
    if 0 ≤ i ∧ i < dense_trajectory_array.length then
      match at? dense_trajectory_array i with
      | none => none
      | some pt =>
        sampleLoop dense_trajectory_array skip fuel (i + skip) (sparse_trajectory_array ++ [pt])
    else some sparse_trajectory_array

/-- `SparsePlanner::sampleTrajectory`; the result is the content of
`sparse_trajectory_array` on return.  Dividing by `0.0` gives an infinity or a NaN,
whose conversion to `int` is undefined. -/
def sampleTrajectory (fuel : Nat) (sampling : ℚ) (dense_trajectory_array : List TrajectoryPt)
    (sparse_trajectory_array : List TrajectoryPt) : Option (List TrajectoryPt) :=
  if sampling = 0 then none
  else
    let skip := toInt ((dense_trajectory_array.length : ℚ) / sampling)
    match sampleLoop dense_trajectory_array skip fuel 0 sparse_trajectory_array with
    | none => none
    | some sampled =>
      match sampled.getLast?, dense_trajectory_array.getLast? with
      | some last_sampled, some last_dense =>
        if last_sampled.id ≠ last_dense.id then some (sampled ++ [last_dense])
        else some sampled
      | _, _ => none

/-! ## Joint interpolation -/

/-- The `for` loop of `interpolateJointPose`: index `i` reads `start[i]` and
`end[i]`; reading `end[i]` past its size is undefined. -/
def interpolateLoop (t : ℚ) : List ℚ → List ℚ → Option (List ℚ)
  | [], _ => some []
  | _ :: _, [] => none
  | s :: ss, e :: es =>
    (interpolateLoop t ss es).map (fun rest => (e - (e - s) * (1 - t)) :: rest)

/-- `SparsePlanner::interpolateJointPose`: the returned flag and the content of
`interp` on return. -/
def interpolateJointPose (start end_ : List ℚ) (t : ℚ) (interp : List ℚ) :
    Option (Bool × List ℚ) :=
  if start.length ≠ end_.length ∧ (t > 1 ∨ t < 0) then some (false, interp)
  else (interpolateLoop t start end_).map (fun r => (true, r))

/-! ## Collaborators -/

/-- Modelled from the spec: the Kinematics Model and the point classes' methods that
use it (`getDOF`, `JointTrajectoryPt::getNominalJointPose` as a function of the joint
point and the seed, `TrajectoryPt::getClosestJointPose` as a function of the waypoint
and the candidate pose, `none` when no feasible pose is found). -/
structure RobotModel where
  getDOF : Nat
  getNominalJointPose : JointTrajectoryPt → List ℚ → List ℚ
  getClosestJointPose : TrajectoryPt → List ℚ → Option (List ℚ)

/-- Modelled from the spec: the Graph Adapter (base class `PlanningGraph`) over an
abstract graph state `G`; each mutating call returns its flag and the new state. -/
structure PlanningGraph (G : Type) where
  insertGraph : G → List TrajectoryPt → Bool × G
  addTrajectory : G → TrajectoryPt → ID → ID → Bool × G
  removeTrajectory : G → TrajectoryPt → Bool × G
  modifyTrajectory : G → TrajectoryPt → Bool × G
  getShortestPath : G → Option (List JointTrajectoryPt) × G
  getCartesianMap : G → CartesianMap

/-- A call made to the Graph Adapter, as recorded in the planner's call log. -/
inductive GraphCall
  | insertGraph (points : List TrajectoryPt)
  | addTrajectory (point : TrajectoryPt) (previous_id next_id : ID)
  | removeTrajectory (point : TrajectoryPt)
  | modifyTrajectory (point : TrajectoryPt)
  | getShortestPath
deriving DecidableEq

/-- State of a `SparsePlanner`: the graph it inherits, its members, and the log of
the calls it made to the graph (`calls` is ghost state). -/
structure SparsePlanner (G : Type) where
  graph : G
  calls : List GraphCall
  sampling_ : ℚ
  cart_points_ : List TrajectoryPt
  sparse_solution_array_ : SolutionArray
  joint_points_map_ : JointMap

/-! ## Interpolation and validation -/

/-- Result of `interpolateSparseTrajectory`: the returned `InterpolationResult`,
with the out-arguments `sparse_index` and `point_pos`, which are written only when
`REPLAN` is returned. -/
inductive InterpolationResult
  | ERROR
  | SUCCESS
  | REPLAN (sparse_index point_pos : Int)
deriving DecidableEq

/-- The inner loop `for(int j = 1; (j < step) && ((start_index + j) < cart_points_.size()); j++)`
of `interpolateSparseTrajectory` for the pair ending at table index `k`.  The first
component of the result is `some r` when the function returns `r` from inside the
loop and `none` when the loop runs to its end.  `rem` bounds the iterations left:
started with `j = 1` and `rem = step`, it reaches `0` only when `j > step`, where the
loop test fails. -/
def interpolateSegment (R : RobotModel) (cart_points_ : List TrajectoryPt) (k : Int)
    (start_index step : Int) (start_jpose end_jpose : List ℚ) :
    Nat → Int → List ℚ → JointMap → Option (Option InterpolationResult × List ℚ × JointMap)
  | 0, _, rough_interp, joint_points_map_ => some (none, rough_interp, joint_points_map_)
  | rem + 1, j, rough_interp, joint_points_map_ =>
    if j < step ∧ 0 ≤ start_index + j ∧ start_index + j < cart_points_.length then
      let pos := start_index + j
      let t : ℚ := (j : ℚ) / (step : ℚ)
      match interpolateJointPose start_jpose end_jpose t rough_interp with
      | none => none
      | some (false, rough) => some (some .ERROR, rough, joint_points_map_)
      | some (true, rough) =>
        match at? cart_points_ pos with
        | none => none
        | some cart_point =>
          match R.getClosestJointPose cart_point rough with
          | some aprox_interp =>
            interpolateSegment R cart_points_ k start_index step start_jpose end_jpose rem
              (j + 1) rough (joint_points_map_.insert cart_point.id ⟨aprox_interp⟩)
          | none => some (some (.REPLAN k pos), rough, joint_points_map_)
    else some (none, rough_interp, joint_points_map_)

/-- The outer loop `for(int k = 1; k < sparse_solution_array.size(); k++)`: the
list argument is `sparse_solution_array` from index `k - 1` on. -/
def interpolatePairs (R : RobotModel) (cart_points_ : List TrajectoryPt) :
    Int → SolutionArray → List ℚ → JointMap → Option (InterpolationResult × JointMap)
  | _, [], _, joint_points_map_ => some (.SUCCESS, joint_points_map_)
  | k, prev :: tail, rough_interp, joint_points_map_ =>
    match tail with
    | [] => some (.SUCCESS, joint_points_map_)
    | next :: _ =>
      let seed_pose : List ℚ := List.replicate R.getDOF 0
      let start_jpose := R.getNominalJointPose prev.2.2 seed_pose
      let end_jpose := R.getNominalJointPose next.2.2 seed_pose
      let map1 := joint_points_map_.insert prev.2.1.id prev.2.2
      let step := next.1 - prev.1
      match interpolateSegment R cart_points_ k prev.1 step start_jpose end_jpose
          step.toNat 1 rough_interp map1 with
      | none => none
      | some (some r, _, map2) => some (r, map2)
      | some (none, rough, map2) =>
        interpolatePairs R cart_points_ (k + 1) tail rough (map2.insert next.2.1.id prev.2.2)

/-- `SparsePlanner::interpolateSparseTrajectory`: the result and the content of
`joint_points_map_` on return (the member is cleared first). -/
def interpolateSparseTrajectory (R : RobotModel) (cart_points_ : List TrajectoryPt)
    (sparse_solution_array : SolutionArray) : Option (InterpolationResult × JointMap) :=
  interpolatePairs R cart_points_ 1 sparse_solution_array [] []

/-! ## Refinement loop -/

/-- Call `getShortestPath` on the graph and log it. -/
def callShortestPath {G : Type} (P : PlanningGraph G) (s : SparsePlanner G) :
    Option (List JointTrajectoryPt) × SparsePlanner G :=
  let r := P.getShortestPath s.graph
  (r.1, { s with graph := r.2, calls := s.calls ++ [GraphCall.getShortestPath] })

/-- Call `addTrajectory(cp, prev_id, next_id)` on the graph and log it. -/
def callAddTrajectory {G : Type} (P : PlanningGraph G) (s : SparsePlanner G)
    (cp : TrajectoryPt) (prev_id next_id : ID) : Bool × SparsePlanner G :=
  let r := P.addTrajectory s.graph cp prev_id next_id
  (r.1, { s with graph := r.2, calls := s.calls ++ [GraphCall.addTrajectory cp prev_id next_id] })

/-- Call `removeTrajectory(cp)` on the graph and log it. -/
def callRemoveTrajectory {G : Type} (P : PlanningGraph G) (s : SparsePlanner G)
    (cp : TrajectoryPt) : Bool × SparsePlanner G :=
  let r := P.removeTrajectory s.graph cp
  (r.1, { s with graph := r.2, calls := s.calls ++ [GraphCall.removeTrajectory cp] })

/-- Call `modifyTrajectory(cp)` on the graph and log it. -/
def callModifyTrajectory {G : Type} (P : PlanningGraph G) (s : SparsePlanner G)
    (cp : TrajectoryPt) : Bool × SparsePlanner G :=
  let r := P.modifyTrajectory s.graph cp
  (r.1, { s with graph := r.2, calls := s.calls ++ [GraphCall.modifyTrajectory cp] })

/-- Call `insertGraph(&points)` on the graph and log it. -/
def callInsertGraph {G : Type} (P : PlanningGraph G) (s : SparsePlanner G)
    (points : List TrajectoryPt) : Bool × SparsePlanner G :=
  let r := P.insertGraph s.graph points
  (r.1, { s with graph := r.2, calls := s.calls ++ [GraphCall.insertGraph points] })

/-- The `while` loop of `SparsePlanner::plan`, entered with `replan == true` and
`MAX_REPLANNING_ATTEMPTS - replanning_attempts == attempts_left`.  The result is
the value of the local `succeeded` when the loop is left, and the planner state. -/
def planLoop {G : Type} (R : RobotModel) (P : PlanningGraph G) :
    Nat → SparsePlanner G → Option (Bool × SparsePlanner G)
  | 0, s => some (false, s)
  | attempts_left + 1, s =>
    let sp := callShortestPath P s
    let s1 := sp.2
    match getSparseSolutionArray s1.cart_points_ sp.1 (P.getCartesianMap s1.graph)
        s1.sparse_solution_array_ with
    | none => none
    | some (false, arr) => some (false, { s1 with sparse_solution_array_ := arr })
    | some (true, arr) =>
      match interpolateSparseTrajectory R s1.cart_points_ arr with
      | none => none
      | some (result, jmap) =>
        let s2 := { s1 with sparse_solution_array_ := arr, joint_points_map_ := jmap }
        match result with
        | .REPLAN sparse_index point_pos =>
          match at? s2.cart_points_ point_pos, at? arr sparse_index with
          | some cart_point, some next =>
            if sparse_index = 0 then
              let a := callAddTrajectory P s2 cart_point nil_uuid next.2.1.id
              if a.1 then planLoop R P attempts_left { a.2 with sparse_solution_array_ := [] }
              else some (false, a.2)
            else
              match at? arr (sparse_index - 1) with
              | some prev =>
                let a := callAddTrajectory P s2 cart_point prev.2.1.id next.2.1.id
                if a.1 then planLoop R P attempts_left { a.2 with sparse_solution_array_ := [] }
                else some (false, a.2)
              | none => none
          | _, _ => none
        | .SUCCESS => some (true, s2)
        | .ERROR => some (false, s2)

/-- `SparsePlanner::plan`: the loop is run and the function ends in `return true;`. -/
def plan {G : Type} (R : RobotModel) (P : PlanningGraph G) (s : SparsePlanner G) :
    Option (Bool × SparsePlanner G) :=
  (planLoop R P MAX_REPLANNING_ATTEMPTS s).map (fun r => (true, r.2))

/-! ## Edit API -/

/-- `cart_points_.insert(cart_points_.begin() + index, cp)`. -/
def insertAt (v : List TrajectoryPt) (index : Nat) (cp : TrajectoryPt) : List TrajectoryPt :=
  v.take index ++ cp :: v.drop index

/-- `SparsePlanner::setTrajectoryPoints`; `fuel` bounds the sampling loop. -/
def setTrajectoryPoints {G : Type} (fuel : Nat) (R : RobotModel) (P : PlanningGraph G)
    (s : SparsePlanner G) (traj : List TrajectoryPt) : Option (Bool × SparsePlanner G) :=
  let s1 := { s with cart_points_ := traj }
  match sampleTrajectory fuel s1.sampling_ s1.cart_points_ [] with
  | none => none
  | some sparse_trajectory_array =>
    let g := callInsertGraph P s1 sparse_trajectory_array
    if g.1 then
      match plan R P g.2 with
      | none => none
      | some (true, s2) => some (true, s2)
      | some (false, s2) => some (false, s2)
    else some (false, g.2)

/-- `SparsePlanner::addTrajectoryPointAfter`. -/
def addTrajectoryPointAfter {G : Type} (R : RobotModel) (P : PlanningGraph G)
    (s : SparsePlanner G) (ref_id : ID) (cp : TrajectoryPt) : Option (Bool × SparsePlanner G) :=
  let sparse_index :=
    findNearestSparsePointIndex s.cart_points_ s.sparse_solution_array_ ref_id true
  if sparse_index = INVALID_INDEX then some (false, s)
  else
    match at? s.sparse_solution_array_ (sparse_index - 1), at? s.sparse_solution_array_ sparse_index with
    | some prev, some next =>
      let index := getDensePointIndex s.cart_points_ ref_id
      if index = INVALID_INDEX then some (false, s)
      else
        let s1 := { s with cart_points_ := insertAt s.cart_points_ (index + 1).toNat cp }
        let a := callAddTrajectory P s1 cp prev.2.1.id next.2.1.id
        if a.1 then plan R P a.2 else some (false, a.2)
    | _, _ => none

/-- `SparsePlanner::addTrajectoryPointBefore`. -/
def addTrajectoryPointBefore {G : Type} (R : RobotModel) (P : PlanningGraph G)
    (s : SparsePlanner G) (ref_id : ID) (cp : TrajectoryPt) : Option (Bool × SparsePlanner G) :=
  let sparse_index :=
    findNearestSparsePointIndex s.cart_points_ s.sparse_solution_array_ ref_id false
  if sparse_index = INVALID_INDEX then some (false, s)
  else
    let prev_id? : Option ID :=
      if sparse_index = 0 then some nil_uuid
      else (at? s.sparse_solution_array_ (sparse_index - 1)).map (fun t => t.2.1.id)
    match prev_id?, at? s.sparse_solution_array_ sparse_index with
    | some prev_id, some next =>
      let index := getDensePointIndex s.cart_points_ ref_id
      if index = INVALID_INDEX then some (false, s)
      else
        let s1 := { s with cart_points_ := insertAt s.cart_points_ index.toNat cp }
        let a := callAddTrajectory P s1 cp prev_id next.2.1.id
        if a.1 then plan R P a.2 else some (false, a.2)
    | _, _ => none

/-- `SparsePlanner::removeTrajectoryPoint`. -/
def removeTrajectoryPoint {G : Type} (R : RobotModel) (P : PlanningGraph G)
    (s : SparsePlanner G) (ref_id : ID) : Option (Bool × SparsePlanner G) :=
  let index := getDensePointIndex s.cart_points_ ref_id
  if index = INVALID_INDEX then some (false, s)
  else
    let erased (t : SparsePlanner G) : SparsePlanner G :=
      { t with cart_points_ := t.cart_points_.eraseIdx index.toNat }
    if isInSparseTrajectory s.sparse_solution_array_ ref_id then
      match at? s.cart_points_ index with
      | none => none
      | some cp =>
        let r := callRemoveTrajectory P s cp
        if r.1 then plan R P (erased r.2) else some (false, r.2)
    else plan R P (erased s)

/-- `SparsePlanner::modifyTrajectoryPoint`; `cp->setID(ref_id)` gives the waypoint
the identifier `ref_id`. -/
def modifyTrajectoryPoint {G : Type} (R : RobotModel) (P : PlanningGraph G)
    (s : SparsePlanner G) (ref_id : ID) (cp0 : TrajectoryPt) : Option (Bool × SparsePlanner G) :=
  let sparse_index := getSparsePointIndex s.sparse_solution_array_ ref_id
  let cp : TrajectoryPt := { cp0 with id := ref_id }
  let overwrite (t : SparsePlanner G) : Option (Bool × SparsePlanner G) :=
    let index := getDensePointIndex t.cart_points_ ref_id
    if 0 ≤ index ∧ index < t.cart_points_.length then
      plan R P { t with cart_points_ := t.cart_points_.set index.toNat cp }
    else none
  if sparse_index = INVALID_INDEX then
    let nearest :=
      findNearestSparsePointIndex s.cart_points_ s.sparse_solution_array_ ref_id true
    match at? s.sparse_solution_array_ (nearest - 1), at? s.sparse_solution_array_ nearest with
    | some prev, some next =>
      let a := callAddTrajectory P s cp prev.2.1.id next.2.1.id
      if a.1 then overwrite a.2 else some (false, a.2)
    | _, _ => none
  else
    let m := callModifyTrajectory P s cp
    if m.1 then overwrite m.2 else some (false, m.2)

/-! ## Specification-side definitions -/

/-- Indices visited by the sampling loop started at index `i` with stride `s` over a
trajectory of length `n` (`f` bounds the number of loop tests). -/
def strideIdx (n s : ℕ) : ℕ → ℕ → List ℕ
  | 0, _ => []
  | f + 1, i => if i < n then i :: strideIdx n s f (i + s) else []

/-- The sampler's index set in the words of the specification: all multiples of the
stride `s` below `n`, followed by `n - 1` when `n - 1` is not a multiple of `s`. -/
def sampledIndices (n s : ℕ) : List ℕ :=
  (List.range n).filter (fun i => i % s = 0) ++ (if (n - 1) % s = 0 then [] else [n - 1])

/-- Identifiers met by following the next-links from `id`, at most `n` of them,
stopping at an identifier that is not a node of the map. -/
def linkChain (cart_map : CartesianMap) : Nat → ID → List ID
  | 0, _ => []
  | n + 1, id =>
    match cart_map.node id with
    | none => []
    | some info => id :: linkChain cart_map n info.links_.id_next

/-- Source waypoint of the node stored under `id`, if there is one. -/
def sourceOf (cart_map : CartesianMap) (id : ID) : Option TrajectoryPt :=
  (cart_map.node id).map (fun info => info.source_trajectory_)

/-- Nominal joint pose of a table entry, as `interpolateSparseTrajectory` obtains it
(seed pose of `getDOF` zeros). -/
def nominalPose (R : RobotModel) (e : SolutionEntry) : List ℚ :=
  R.getNominalJointPose e.2.2 (List.replicate R.getDOF 0)

/-- The linearly interpolated pose for dense position `p` between the entries `prev`
and `next`: fraction `t = (p - prev.pos) / (next.pos - prev.pos)`, coordinates
`end[i] - (end[i] - start[i]) * (1 - t)`; `none` when `next`'s nominal pose has fewer
coordinates than `prev`'s. -/
def interpolatedPose (R : RobotModel) (prev next : SolutionEntry) (p : Int) : Option (List ℚ) :=
  interpolateLoop (((p - prev.1 : Int) : ℚ) / ((next.1 - prev.1 : Int) : ℚ))
    (nominalPose R prev) (nominalPose R next)

/-- Dense position `p` lies strictly between the adjacent table entries `k - 1` and
`k`. -/
def InBetween (table : SolutionArray) (k p : Int) : Prop :=
  ∃ prev next, at? table (k - 1) = some prev ∧ at? table k = some next
    ∧ prev.1 < p ∧ p < next.1

/-- Dense position `p` lies strictly between the table entries `k - 1` and `k`, `wp`
is the dense waypoint at `p` and `pose` its linearly interpolated pose. -/
def Candidate (R : RobotModel) (cart_points_ : List TrajectoryPt) (table : SolutionArray)
    (k p : Int) (wp : TrajectoryPt) (pose : List ℚ) : Prop :=
  ∃ prev next, at? table (k - 1) = some prev ∧ at? table k = some next
    ∧ prev.1 < p ∧ p < next.1 ∧ at? cart_points_ p = some wp
    ∧ interpolatedPose R prev next p = some pose

/-- The waypoint at the in-between position `p` rejects its interpolated pose: it has
no nearest feasible joint pose for it. -/
def Rejected (R : RobotModel) (cart_points_ : List TrajectoryPt) (table : SolutionArray)
    (k p : Int) : Prop :=
  ∃ wp pose, Candidate R cart_points_ table k p wp pose ∧ R.getClosestJointPose wp pose = none

/-- The waypoint at the in-between position `p` accepts its interpolated pose. -/
def Accepted (R : RobotModel) (cart_points_ : List TrajectoryPt) (table : SolutionArray)
    (k p : Int) : Prop :=
  ∃ wp pose, Candidate R cart_points_ table k p wp pose
    ∧ (R.getClosestJointPose wp pose).isSome = true

/-- Within one pair of entries: the waypoint at offset `q` from `start_index` rejects
the pose interpolated at fraction `q / step`. -/
def OffsetRejected (R : RobotModel) (cart_points_ : List TrajectoryPt) (start_index step : Int)
    (sj ej : List ℚ) (q : Int) : Prop :=
  ∃ wp pose, at? cart_points_ (start_index + q) = some wp
    ∧ interpolateLoop ((q : ℚ) / (step : ℚ)) sj ej = some pose
    ∧ R.getClosestJointPose wp pose = none

/-- Within one pair of entries: the waypoint at offset `q` accepts its pose. -/
def OffsetAccepted (R : RobotModel) (cart_points_ : List TrajectoryPt) (start_index step : Int)
    (sj ej : List ℚ) (q : Int) : Prop :=
  ∃ wp pose, at? cart_points_ (start_index + q) = some wp
    ∧ interpolateLoop ((q : ℚ) / (step : ℚ)) sj ej = some pose
    ∧ (R.getClosestJointPose wp pose).isSome = true

/-- One of the three actions of an iteration of the loop of `plan`: the rebuild of the
table, the validation pass, the promotion of a waypoint. -/
inductive PlanEvent
  | rebuild
  | validation
  | promotion
deriving DecidableEq

/-- The loop of `plan` (`planLoop`) instrumented: the same run, returned together with
the actions it performed, in order, up to the point where the loop is left or where a
run without defined result stops. -/
def planTrace {G : Type} (R : RobotModel) (P : PlanningGraph G) :
    Nat → SparsePlanner G → List PlanEvent × Option (Bool × SparsePlanner G)
  | 0, s => ([], some (false, s))
  | attempts_left + 1, s =>
    let sp := callShortestPath P s
    let s1 := sp.2
    match getSparseSolutionArray s1.cart_points_ sp.1 (P.getCartesianMap s1.graph)
        s1.sparse_solution_array_ with
    | none => ([.rebuild], none)
    | some (false, arr) => ([.rebuild], some (false, { s1 with sparse_solution_array_ := arr }))
    | some (true, arr) =>
      match interpolateSparseTrajectory R s1.cart_points_ arr with
      | none => ([.rebuild, .validation], none)
      | some (result, jmap) =>
        let s2 := { s1 with sparse_solution_array_ := arr, joint_points_map_ := jmap }
        match result with
        | .REPLAN sparse_index point_pos =>
          match at? s2.cart_points_ point_pos, at? arr sparse_index with
          | some cart_point, some next =>
            if sparse_index = 0 then
              let a := callAddTrajectory P s2 cart_point nil_uuid next.2.1.id
              if a.1 then
                let t := planTrace R P attempts_left { a.2 with sparse_solution_array_ := [] }
                (.rebuild :: .validation :: .promotion :: t.1, t.2)
              else ([.rebuild, .validation, .promotion], some (false, a.2))
            else
              match at? arr (sparse_index - 1) with
              | some prev =>
                let a := callAddTrajectory P s2 cart_point prev.2.1.id next.2.1.id
                if a.1 then
                  let t := planTrace R P attempts_left { a.2 with sparse_solution_array_ := [] }
                  (.rebuild :: .validation :: .promotion :: t.1, t.2)
                else ([.rebuild, .validation, .promotion], some (false, a.2))
              | none => ([.rebuild, .validation], none)
          | _, _ => ([.rebuild, .validation], none)
        | .SUCCESS => ([.rebuild, .validation], some (true, s2))
        | .ERROR => ([.rebuild, .validation], some (false, s2))

/-- The `case REPLAN` block of the `switch` in `plan`, up to and including the
`addTrajectory` call: it picks the dense waypoint at `point_pos`, takes `prev_id` and
`next_id` from the table (`nil_uuid` as `prev_id` when `sparse_index == 0`) and calls
the graph.  The result is what the call returned and the planner state after it. -/
def caseREPLAN {G : Type} (P : PlanningGraph G) (s : SparsePlanner G)
    (sparse_index point_pos : Int) : Option (Bool × SparsePlanner G) :=
  match at? s.cart_points_ point_pos, at? s.sparse_solution_array_ sparse_index with
  | some cart_point, some next =>
    if sparse_index = 0 then
      some (callAddTrajectory P s cart_point nil_uuid next.2.1.id)
    else
      match at? s.sparse_solution_array_ (sparse_index - 1) with
      | some prev => some (callAddTrajectory P s cart_point prev.2.1.id next.2.1.id)
      | none => none
  | _, _ => none

/-- Last entry of the non-empty table `a :: tail`. -/
def lastEntry : SolutionEntry → SolutionArray → SolutionEntry
  | a, [] => a
  | _, b :: rest => lastEntry b rest

/-! ## Concrete inputs used below -/

namespace Example

/-- Waypoint with identifier `1`. -/
def c0 : TrajectoryPt := ⟨1, 0⟩
/-- Waypoint with identifier `2`. -/
def c1 : TrajectoryPt := ⟨2, 0⟩
/-- Waypoint with identifier `3`. -/
def c2 : TrajectoryPt := ⟨3, 0⟩
/-- Waypoint with identifier `4`. -/
def c3 : TrajectoryPt := ⟨4, 0⟩
/-- Waypoint with identifier `5`. -/
def c4 : TrajectoryPt := ⟨5, 0⟩

/-- Joint point with joint vector `[0]`. -/
def jA : JointTrajectoryPt := ⟨[0]⟩
/-- Joint point with joint vector `[1]`. -/
def jB : JointTrajectoryPt := ⟨[1]⟩

/-- Ordering map of the two nodes `c0 → c2`. -/
def chainMap : CartesianMap :=
  [(1, ⟨⟨nil_uuid, 3⟩, c0⟩), (3, ⟨⟨1, nil_uuid⟩, c2⟩)]

/-- Robot model whose joint points' nominal pose is their joint vector and whose
waypoints accept every candidate pose. -/
def acceptAll : RobotModel where
  getDOF := 1
  getNominalJointPose := fun j _ => j.joints
  getClosestJointPose := fun _ pose => some pose

/-- Graph whose solver finds no path; every mutation is accepted. -/
def noPath : PlanningGraph Unit where
  insertGraph := fun g _ => (true, g)
  addTrajectory := fun g _ _ _ => (true, g)
  removeTrajectory := fun g _ => (true, g)
  modifyTrajectory := fun g _ => (true, g)
  getShortestPath := fun g => (none, g)
  getCartesianMap := fun _ => []

/-- A planner with sampling parameter `1` and nothing loaded. -/
def fresh : SparsePlanner Unit where
  graph := ()
  calls := []
  sampling_ := 1
  cart_points_ := []
  sparse_solution_array_ := []
  joint_points_map_ := []

/-- A planner over the dense trajectory `c0, c1, c2` with sparse table `c0, c2`. -/
def loaded : SparsePlanner Unit where
  graph := ()
  calls := []
  sampling_ := 1
  cart_points_ := [c0, c1, c2]
  sparse_solution_array_ := [(0, c0, jA), (2, c2, jB)]
  joint_points_map_ := [(1, jA)]

/-- Joint point with joint vector `[0, 0]`. -/
def jLong : JointTrajectoryPt := ⟨[0, 0]⟩

/-- Robot model like `acceptAll`, except that the waypoint with identifier `2`
rejects every candidate pose. -/
def rejectSecond : RobotModel where
  getDOF := 1
  getNominalJointPose := fun j _ => j.joints
  getClosestJointPose := fun wp pose => if wp.id = 2 then none else some pose

/-- Dense trajectory of five waypoints. -/
def fivePoints : List TrajectoryPt := [c0, c1, c2, c3, c4]

/-- Dense trajectory of ten waypoints `p0 .. p9` (identifiers `1 .. 10`). -/
def tenPoints : List TrajectoryPt :=
  [⟨1, 0⟩, ⟨2, 0⟩, ⟨3, 0⟩, ⟨4, 0⟩, ⟨5, 0⟩, ⟨6, 0⟩, ⟨7, 0⟩, ⟨8, 0⟩, ⟨9, 0⟩, ⟨10, 0⟩]

/-- Table over `c0, c1, c2` whose entries have nominal poses of equal length. -/
def evenTable : SolutionArray := [(0, c0, jA), (2, c2, jB)]

/-- Table over `c0, c1, c2` whose first entry has a longer nominal pose than the
second. -/
def mixedTable : SolutionArray := [(0, c0, jLong), (2, c2, jA)]

/-- Ordering map with two nodes whose previous link is nil (`1` and `3`) and a next
link from node `2` back to node `1`. -/
def loopMap : CartesianMap :=
  [(1, ⟨⟨nil_uuid, 2⟩, c0⟩), (2, ⟨⟨1, 1⟩, c1⟩), (3, ⟨⟨nil_uuid, nil_uuid⟩, c2⟩)]

/-- Graph that rejects every add, remove and modify; its solver finds no path. -/
def rejecting : PlanningGraph Unit where
  insertGraph := fun g _ => (true, g)
  addTrajectory := fun g _ _ _ => (false, g)
  removeTrajectory := fun g _ => (false, g)
  modifyTrajectory := fun g _ => (false, g)
  getShortestPath := fun g => (none, g)
  getCartesianMap := fun _ => []

/-- Robot model whose joint points all have the nominal pose `[0]` and whose waypoints
accept every candidate pose. -/
def unitPose : RobotModel where
  getDOF := 1
  getNominalJointPose := fun _ _ => [0]
  getClosestJointPose := fun _ pose => some pose

/-- The planner `loaded` after a validation pass. -/
def validated : SparsePlanner Unit where
  graph := ()
  calls := [GraphCall.getShortestPath]
  sampling_ := 1
  cart_points_ := [c0, c1, c2]
  sparse_solution_array_ := evenTable
  joint_points_map_ := [(1, jA)]

end Example

/-! ## Auxiliary facts -/

theorem findIf_eq_none {α : Type} (p : α → Bool) (l : List α) (h : ∀ x ∈ l, p x = false) :
    findIf p l = none := by
  induction l with
  | nil => rfl
  | cons x xs ih =>
    have hx : p x = false := h x (List.mem_cons_self x xs)
    have hxs : findIf p xs = none := ih (fun y hy => h y (List.mem_cons_of_mem x hy))
    simp [findIf, hx, hxs]

theorem getDensePointIndex_absent (cart_points_ : List TrajectoryPt) (ref_id : ID)
    (h : ∀ cp ∈ cart_points_, cp.id ≠ ref_id) :
    getDensePointIndex cart_points_ ref_id = INVALID_INDEX := by
  have hnone : findIf (fun cp : TrajectoryPt => ref_id == cp.id) cart_points_ = none := by
    apply findIf_eq_none
    intro x hx
    have hne := h x hx
    simp only [beq_eq_false_iff_ne, ne_eq]
    exact fun e => hne e.symm
  simp [getDensePointIndex, hnone]

/-! ### Sampler -/

theorem toInt_natCast_div (n k : ℕ) : toInt ((n : ℚ) / (k : ℚ)) = ((n / k : ℕ) : ℤ) := by
  unfold toInt
  have hq : (0 : ℚ) ≤ (n : ℚ) / (k : ℚ) := by positivity
  have hnum : 0 ≤ ((n : ℚ) / (k : ℚ)).num := Rat.num_nonneg.mpr hq
  rw [Int.tdiv_eq_ediv hnum (by exact_mod_cast Nat.zero_le _), ← Rat.floor_def]
  have := Rat.floor_intCast_div_natCast (n : ℤ) k
  simpa using this

theorem at?_natCast {α : Type} (v : List α) (i : ℕ) : at? v (i : ℤ) = v[i]? := by
  simp [at?]

theorem sampleLoop_stride (dense : List TrajectoryPt) (s : ℕ) (hs : 1 ≤ s) :
    ∀ (fuel i : ℕ) (acc : List TrajectoryPt), dense.length - i < fuel →
      ∃ out, sampleLoop dense (s : ℤ) fuel (i : ℤ) acc = some (acc ++ out)
        ∧ out.map some = (strideIdx dense.length s fuel i).map (fun j => dense[j]?) := by
  intro fuel
  induction fuel with
  | zero => intro i acc h; omega
  | succ f ih =>
    intro i acc h
    by_cases hi : i < dense.length
    · have hget : dense[i]? = some dense[i] := List.getElem?_eq_getElem hi
      obtain ⟨out, hout, hmap⟩ := ih (i + s) (acc ++ [dense[i]]) (by omega)
      refine ⟨dense[i] :: out, ?_, ?_⟩
      · have hcond : (0 : ℤ) ≤ (i : ℤ) ∧ (i : ℤ) < (dense.length : ℤ) := by
          constructor <;> omega
        have hcast : (i : ℤ) + (s : ℤ) = ((i + s : ℕ) : ℤ) := by push_cast; rfl
        simp only [sampleLoop, hcond, and_self, if_true, at?_natCast, hget, hcast, hout]
        simp
      · simp [strideIdx, hi, hmap, hget]
    · refine ⟨[], ?_, ?_⟩
      · simp [sampleLoop, hi]
      · simp [strideIdx, hi]

theorem mem_strideIdx (n s : ℕ) (hs : 1 ≤ s) :
    ∀ (f i x : ℕ), n - i ≤ f → (x ∈ strideIdx n s f i ↔ x < n ∧ i ≤ x ∧ (x - i) % s = 0) := by
  intro f
  induction f with
  | zero =>
    intro i x h
    simp only [strideIdx, List.not_mem_nil, false_iff]
    omega
  | succ f ih =>
    intro i x h
    by_cases hi : i < n
    · simp only [strideIdx, hi, if_true, List.mem_cons]
      rw [ih (i + s) x (by omega)]
      constructor
      · rintro (rfl | ⟨h1, h2, h3⟩)
        · simp [hi]
        · refine ⟨h1, by omega, ?_⟩
          have : x - i = (x - (i + s)) + s := by omega
          rw [this, Nat.add_mod_right]; exact h3
      · rintro ⟨h1, h2, h3⟩
        by_cases hx : x = i
        · exact Or.inl hx
        · right
          have hpos : 0 < x - i := by omega
          have hge : s ≤ x - i := Nat.le_of_dvd hpos (Nat.dvd_of_mod_eq_zero h3)
          refine ⟨h1, by omega, ?_⟩
          have : x - i = (x - (i + s)) + s := by omega
          rw [this, Nat.add_mod_right] at h3; exact h3
    · simp only [strideIdx, hi, if_false, List.not_mem_nil, false_iff]
      omega

theorem strideIdx_sorted (n s : ℕ) (hs : 1 ≤ s) :
    ∀ (f i : ℕ), (strideIdx n s f i).Pairwise (· < ·) ∧ ∀ x ∈ strideIdx n s f i, i ≤ x := by
  intro f
  induction f with
  | zero => intro i; simp [strideIdx]
  | succ f ih =>
    intro i
    by_cases hi : i < n
    · obtain ⟨h1, h2⟩ := ih (i + s)
      simp only [strideIdx, hi, if_true, List.pairwise_cons, List.mem_cons]
      refine ⟨⟨fun x hx => ?_, h1⟩, ?_⟩
      · have := h2 x hx; omega
      · rintro x (rfl | hx)
        · exact le_refl _
        · have := h2 x hx; omega
    · simp [strideIdx, hi]

theorem strideIdx_eq_filter (n s : ℕ) (hs : 1 ≤ s) (f : ℕ) (hf : n ≤ f) :
    strideIdx n s f 0 = (List.range n).filter (fun i => i % s = 0) := by
  apply List.eq_of_perm_of_sorted (r := (· < ·))
  · rw [List.perm_ext_iff_of_nodup]
    · intro x
      rw [mem_strideIdx n s hs f 0 x (by omega)]
      simp
    · exact (strideIdx_sorted n s hs f 0).1.imp (fun h => Nat.ne_of_lt h)
    · exact (List.nodup_range n).filter _
  · exact (strideIdx_sorted n s hs f 0).1
  · exact (List.pairwise_lt_range n).filter _


theorem getElem_id_inj (dense : List TrajectoryPt) (hids : (dense.map (fun p => p.id)).Nodup)
    (i j : ℕ) (hi : i < dense.length) (hj : j < dense.length)
    (h : dense[i].id = dense[j].id) : i = j := by
  have hi' : i < (dense.map (fun p => p.id)).length := by simpa using hi
  have hj' : j < (dense.map (fun p => p.id)).length := by simpa using hj
  have h2 : (dense.map (fun p => p.id))[i] = (dense.map (fun p => p.id))[j] := by
    simpa using h
  exact hids.getElem_inj_iff.1 h2


theorem multiples_eq_map (n s : ℕ) (hs : 1 ≤ s) (hn : 0 < n) :
    (List.range n).filter (fun i => i % s = 0)
      = (List.range ((n - 1) / s + 1)).map (fun j => j * s) := by
  apply List.eq_of_perm_of_sorted (r := (· < ·))
  · rw [List.perm_ext_iff_of_nodup]
    · intro x
      simp only [List.mem_filter, List.mem_range, decide_eq_true_eq, List.mem_map]
      constructor
      · rintro ⟨hx, hmod⟩
        refine ⟨x / s, ?_, Nat.div_mul_cancel (Nat.dvd_of_mod_eq_zero hmod)⟩
        exact Nat.lt_succ_of_le (Nat.div_le_div_right (by omega))
      · rintro ⟨j, hj, rfl⟩
        refine ⟨?_, Nat.mul_mod_left j s⟩
        have : j * s ≤ n - 1 := (Nat.le_div_iff_mul_le (by omega)).1 (Nat.le_of_lt_succ hj)
        omega
    · exact (List.nodup_range n).filter _
    · refine (List.nodup_range _).map ?_
      intro a b hab
      exact Nat.eq_of_mul_eq_mul_right (by omega : 0 < s) hab
  · exact (List.pairwise_lt_range n).filter _
  · refine (List.pairwise_lt_range _).map _ ?_
    intro a b hab
    exact Nat.mul_lt_mul_of_pos_right hab (by omega)

theorem sampleTrajectory_run (dense : List TrajectoryPt) (k : ℕ)
    (hk : 0 < k) (hkn : k < dense.length) (fuel : ℕ) (hfuel : dense.length < fuel) :
    ∃ (out0 : List TrajectoryPt) (l : ℕ) (x y : TrajectoryPt),
      out0.map some = ((List.range dense.length).filter
          (fun i => i % (dense.length / k) = 0)).map (fun i => dense[i]?)
      ∧ l < dense.length ∧ (l = dense.length - 1 ↔ (dense.length - 1) % (dense.length / k) = 0)
      ∧ dense[l]? = some x ∧ dense[dense.length - 1]? = some y
      ∧ sampleTrajectory fuel (k : ℚ) dense []
          = some (if x.id ≠ y.id then out0 ++ [y] else out0) := by
  set n := dense.length with hn
  set s := n / k with hsdef
  have hs : 1 ≤ s := (Nat.one_le_div_iff hk).2 (le_of_lt hkn)
  have hnpos : 0 < n := by omega
  obtain ⟨out0, hloop, hmap0⟩ := sampleLoop_stride dense s hs fuel 0 [] (by omega)
  rw [← hn, strideIdx_eq_filter n s hs fuel (by omega)] at hmap0
  set F := (List.range n).filter (fun i => i % s = 0) with hF
  have hFsorted : F.Pairwise (· < ·) := (List.pairwise_lt_range n).filter _
  have hFmem : ∀ x, x ∈ F ↔ x < n ∧ x % s = 0 := by
    intro x; simp [hF]
  have hFne : F ≠ [] := by
    intro h0
    have : 0 ∈ F := (hFmem 0).2 ⟨hnpos, Nat.zero_mod s⟩
    rw [h0] at this; exact List.not_mem_nil _ this
  obtain ⟨F', l, hFl⟩ : ∃ F' l, F = F' ++ [l] :=
    ⟨F.dropLast, F.getLast hFne, (List.dropLast_append_getLast hFne).symm⟩
  have hl : l < n ∧ l % s = 0 := (hFmem l).1 (by rw [hFl]; simp)
  have hlast_iff : l = n - 1 ↔ (n - 1) % s = 0 := by
    constructor
    · intro h; rw [← h]; exact hl.2
    · intro h
      have hmem : n - 1 ∈ F := (hFmem (n - 1)).2 ⟨by omega, h⟩
      rw [hFl, List.mem_append] at hmem
      rcases hmem with hmem | hmem
      · have hlt : n - 1 < l := by
          rw [hFl, List.pairwise_append] at hFsorted
          exact hFsorted.2.2 _ hmem l (by simp)
        omega
      · exact (List.mem_singleton.1 hmem).symm
  have hmap1 := hmap0
  rw [hFl, List.map_append] at hmap1
  obtain ⟨out', xs, hout, hout', hxs⟩ := List.map_eq_append_iff.1 hmap1
  have hgl : dense[l]? = some dense[l] := List.getElem?_eq_getElem hl.1
  obtain ⟨x, rfl, hx⟩ : ∃ x, xs = [x] ∧ x = dense[l] := by
    simp only [List.map_cons, List.map_nil, hgl] at hxs
    match xs, hxs with
    | [y], h => exact ⟨y, rfl, by simpa using h⟩
  have hgn : dense[n - 1]? = some dense[n - 1] := List.getElem?_eq_getElem (by omega)
  have hdl : dense.getLast? = some dense[n - 1] := by
    rw [List.getLast?_eq_getElem?]; exact hgn
  have hsl : out0.getLast? = some x := by rw [hout]; simp
  have hk0 : ((k : ℚ) = 0) = False := by
    simp only [eq_iff_iff, iff_false]; exact_mod_cast (Nat.pos_iff_ne_zero.1 hk)
  have hskip : toInt ((n : ℚ) / (k : ℚ)) = (s : ℤ) := toInt_natCast_div n k
  have hloop' : sampleLoop dense (s : ℤ) fuel 0 [] = some out0 := by
    simpa using hloop
  refine ⟨out0, l, x, dense[n - 1], hmap0, hl.1, hlast_iff, by rw [hgl, hx], hgn, ?_⟩
  unfold sampleTrajectory
  simp only [hk0, if_false, ← hn, hskip, hloop', hsl, hdl]
  by_cases hc : x.id = dense[n - 1].id <;> simp [hc]

theorem sampleTrajectory_indices (dense : List TrajectoryPt) (k : ℕ)
    (hids : (dense.map (fun p => p.id)).Nodup) (hk : 0 < k) (hkn : k < dense.length)
    (fuel : ℕ) (hfuel : dense.length < fuel) :
    ∃ out, sampleTrajectory fuel (k : ℚ) dense [] = some out
      ∧ out.map some
          = (sampledIndices dense.length (dense.length / k)).map (fun i => dense[i]?) := by
  obtain ⟨out0, l, x, y, hmap, hl, hiff, hx, hy, hrun⟩ :=
    sampleTrajectory_run dense k hk hkn fuel hfuel
  have hn1 : dense.length - 1 < dense.length := by omega
  rw [List.getElem?_eq_getElem hl] at hx
  rw [List.getElem?_eq_getElem hn1] at hy
  have hx' : x = dense[l] := (Option.some.inj hx).symm
  have hy' : y = dense[dense.length - 1] := (Option.some.inj hy).symm
  by_cases hcase : (dense.length - 1) % (dense.length / k) = 0
  · have hln : l = dense.length - 1 := hiff.2 hcase
    have hxy : x.id = y.id := by rw [hx', hy']; simp [hln]
    refine ⟨out0, by rw [hrun]; simp [hxy], ?_⟩
    simpa [sampledIndices, hcase] using hmap
  · have hxy : x.id ≠ y.id := by
      rw [hx', hy']
      intro h
      exact hcase (hiff.1 (getElem_id_inj dense hids l _ hl hn1 h))
    refine ⟨out0 ++ [y], by rw [hrun]; simp [hxy], ?_⟩
    simp only [sampledIndices, hcase, if_false, List.map_append, hmap, List.map_cons,
      List.map_nil, List.getElem?_eq_getElem hn1, hy']

theorem sampledIndices_facts (n s : ℕ) (hn : 0 < n) :
    0 ∈ sampledIndices n s ∧ n - 1 ∈ sampledIndices n s
      ∧ (sampledIndices n s).Pairwise (· < ·) ∧ ∀ i ∈ sampledIndices n s, i < n := by
  have hFmem : ∀ x, x ∈ (List.range n).filter (fun i => i % s = 0) ↔ x < n ∧ x % s = 0 := by
    intro x; simp
  have hFsorted : ((List.range n).filter (fun i => i % s = 0)).Pairwise (· < ·) :=
    (List.pairwise_lt_range n).filter _
  by_cases hcase : (n - 1) % s = 0
  · simp only [sampledIndices, hcase, if_true, List.append_nil]
    exact ⟨(hFmem 0).2 ⟨hn, Nat.zero_mod s⟩, (hFmem _).2 ⟨by omega, hcase⟩, hFsorted,
      fun i hi => ((hFmem i).1 hi).1⟩
  · simp only [sampledIndices, hcase, if_false]
    refine ⟨List.mem_append_left _ ((hFmem 0).2 ⟨hn, Nat.zero_mod s⟩),
      List.mem_append_right _ (List.mem_singleton_self _), ?_, ?_⟩
    · rw [List.pairwise_append]
      refine ⟨hFsorted, List.pairwise_singleton _ _, ?_⟩
      intro a ha b hb
      rw [List.mem_singleton] at hb
      obtain ⟨h1, h2⟩ := (hFmem a).1 ha
      have : a ≠ n - 1 := fun h => hcase (h ▸ h2)
      omega
    · intro i hi
      rcases List.mem_append.1 hi with h | h
      · exact ((hFmem i).1 h).1
      · rw [List.mem_singleton] at h; omega

theorem add_le_mul_succ (k s : ℕ) (hk : 1 ≤ k) (hs : 1 ≤ s) : k + s ≤ k * s + 1 := by
  obtain ⟨a, rfl⟩ := Nat.exists_eq_add_of_le hk
  obtain ⟨b, rfl⟩ := Nat.exists_eq_add_of_le hs
  nlinarith [Nat.zero_le (a * b)]

theorem sample_length_arith (n k : ℕ) (hk : 0 < k) (hkn : k < n) :
    ((n - 1) / (n / k) + 1 + 1 ≤ 2 * k)
    ∧ ((n - 1) / (n / k) + 1 + (if (n - 1) % (n / k) = 0 then 0 else 1) ≤ k + 1 ↔ n % k ≤ 1) := by
  have hs : 1 ≤ n / k := (Nat.one_le_div_iff hk).2 (le_of_lt hkn)
  have e1 : (n / k) * ((n - 1) / (n / k)) + (n - 1) % (n / k) = n - 1 := Nat.div_add_mod _ _
  have e2 : k * (n / k) + n % k = n := Nat.div_add_mod _ _
  have hr : (n - 1) % (n / k) < n / k := Nat.mod_lt _ hs
  have ht : n % k < k := Nat.mod_lt _ hk
  generalize n / k = s at *
  generalize (n - 1) / s = q at *
  generalize (n - 1) % s = r at *
  generalize n % k = t at *
  constructor
  · by_contra hcon
    have hq : 2 * k - 1 ≤ q := by omega
    have h1 : s * (2 * k - 1) ≤ s * q := Nat.mul_le_mul_left s hq
    have h2 : s * (2 * k - 1) = 2 * (k * s) - s := by
      rw [Nat.mul_sub, Nat.mul_one]; ring_nf
    have h3 : k + s ≤ k * s + 1 := add_le_mul_succ k s hk hs
    omega
  · by_cases hr0 : r = 0
    · simp only [hr0, if_true]
      constructor
      · intro h
        have hq : q ≤ k := by omega
        have h1 : s * q ≤ s * k := Nat.mul_le_mul_left s hq
        have h2 : s * k = k * s := Nat.mul_comm _ _
        omega
      · intro h
        have h1 : s * q ≤ s * k := by rw [Nat.mul_comm s k]; omega
        have := Nat.le_of_mul_le_mul_left h1 (by omega : 0 < s)
        omega
    · simp only [hr0, if_false]
      constructor
      · intro h
        have hq : q + 1 ≤ k := by omega
        have h1 : s * (q + 1) ≤ s * k := Nat.mul_le_mul_left s hq
        have h2 : s * k = k * s := Nat.mul_comm _ _
        rw [Nat.mul_add, Nat.mul_one] at h1
        omega
      · intro h
        have h1 : s * q < s * k := by rw [Nat.mul_comm s k]; omega
        have := Nat.lt_of_mul_lt_mul_left h1
        omega
theorem sampleLoop_zero_skip (dense : List TrajectoryPt) (x : TrajectoryPt) (xs : List TrajectoryPt)
    (h : dense = x :: xs) (fuel : Nat) (acc : List TrajectoryPt) :
    sampleLoop dense 0 fuel 0 acc = none := by
  subst h
  induction fuel generalizing acc with
  | zero => rfl
  | succ f ih =>
    simp only [sampleLoop]
    simp [at?, ih]

/-! ### Ordering walk -/

theorem orderedWalk_none (m : CartesianMap) :
    ∀ (n : ℕ) (id : ID) (acc : List TrajectoryPt),
      (linkChain m n id).length < n → orderedWalk m n id acc = none := by
  intro n
  induction n with
  | zero => intro id acc h; simp at h
  | succ n ih =>
    intro id acc h
    unfold orderedWalk
    unfold linkChain at h
    cases hnode : m.node id with
    | none => rfl
    | some info =>
      rw [hnode] at h
      exact ih _ _ (by simpa using h)

theorem orderedWalk_some (m : CartesianMap) :
    ∀ (n : ℕ) (id : ID) (acc out : List TrajectoryPt), orderedWalk m n id acc = some out →
      (linkChain m n id).length = n
      ∧ ∃ rest, out = acc ++ rest ∧ rest.map some = (linkChain m n id).map (sourceOf m) := by
  intro n
  induction n with
  | zero =>
    intro id acc out h
    simp only [orderedWalk, Option.some.injEq] at h
    exact ⟨rfl, [], by simp [h], rfl⟩
  | succ n ih =>
    intro id acc out h
    unfold orderedWalk at h
    unfold linkChain
    cases hnode : m.node id with
    | none => rw [hnode] at h; exact absurd h (by simp)
    | some info =>
      rw [hnode] at h
      obtain ⟨hlen, rest, hout, hrest⟩ := ih _ _ _ h
      refine ⟨by simp [hlen], info.source_trajectory_ :: rest, by simp [hout], ?_⟩
      simp [hrest, sourceOf, hnode]

theorem linkChain_subset_keys (m : CartesianMap) :
    ∀ (n : ℕ) (id : ID), ∀ x ∈ linkChain m n id, x ∈ m.map Prod.fst := by
  intro n
  induction n with
  | zero => intro id x hx; simp [linkChain] at hx
  | succ n ih =>
    intro id x hx
    unfold linkChain at hx
    cases hnode : m.node id with
    | none => rw [hnode] at hx; simp at hx
    | some info =>
      rw [hnode] at hx
      rcases List.mem_cons.1 hx with rfl | hx
      · unfold CartesianMap.node at hnode
        cases hf : List.find? (fun p => p.1 == x) m with
        | none => rw [hf] at hnode; simp at hnode
        | some p =>
          have hp := List.mem_of_find?_eq_some hf
          have hk := List.find?_some hf
          simp only [beq_iff_eq] at hk
          exact List.mem_map.2 ⟨p, hp, hk⟩
      · exact ih _ x hx

/-! ### Validator scan -/

theorem interpolateLoop_total (t : ℚ) :
    ∀ (s e : List ℚ), s.length ≤ e.length → ∃ v, interpolateLoop t s e = some v := by
  intro s
  induction s with
  | nil => intro e _; exact ⟨[], by simp [interpolateLoop]⟩
  | cons a s ih =>
    intro e h
    cases e with
    | nil => simp at h
    | cons b e =>
      obtain ⟨v, hv⟩ := ih e (by simpa using h)
      exact ⟨(b - (b - a) * (1 - t)) :: v, by simp [interpolateLoop, hv]⟩

theorem interpolateJointPose_inside (s e : List ℚ) (t : ℚ) (interp : List ℚ)
    (h0 : 0 ≤ t) (h1 : t ≤ 1) :
    interpolateJointPose s e t interp = (interpolateLoop t s e).map (fun r => (true, r)) := by
  unfold interpolateJointPose
  have : ¬ (s.length ≠ e.length ∧ (t > 1 ∨ t < 0)) := by
    rintro ⟨_, h | h⟩
    · exact absurd h1 (not_le.2 h)
    · exact absurd h0 (not_le.2 h)
  simp only [this, if_false]

theorem at?_some_of_range {α : Type} (v : List α) (i : Int) (h0 : 0 ≤ i) (h1 : i < v.length) :
    ∃ x, at? v i = some x := by
  have hlt : i.toNat < v.length := by omega
  exact ⟨v[i.toNat], by simp [at?, h0, List.getElem?_eq_getElem hlt]⟩

theorem interpolateSegment_scan (R : RobotModel) (cart_points_ : List TrajectoryPt) (k : Int)
    (start_index step : Int) (sj ej : List ℚ) (hlen : sj.length ≤ ej.length)
    (hstart : 0 ≤ start_index) (hend : start_index + step < cart_points_.length) :
    ∀ (rem : ℕ) (j : Int) (rough : List ℚ) (jm : JointMap), 1 ≤ j → step < j + rem →
      ∃ res rough' jm',
        interpolateSegment R cart_points_ k start_index step sj ej rem j rough jm
          = some (res, rough', jm')
        ∧ ((res = none ∧ ∀ q, j ≤ q → q < step →
              OffsetAccepted R cart_points_ start_index step sj ej q)
          ∨ (∃ q, j ≤ q ∧ q < step ∧ res = some (.REPLAN k (start_index + q))
              ∧ OffsetRejected R cart_points_ start_index step sj ej q
              ∧ ∀ q', j ≤ q' → q' < q →
                  OffsetAccepted R cart_points_ start_index step sj ej q')) := by
  intro rem
  induction rem with
  | zero =>
    intro j rough jm hj hrem
    refine ⟨none, rough, jm, rfl, Or.inl ⟨rfl, ?_⟩⟩
    intro q h1 h2; omega
  | succ rem ih =>
    intro j rough jm hj hrem
    by_cases hjs : j < step
    · have hcond : j < step ∧ 0 ≤ start_index + j ∧ start_index + j < cart_points_.length :=
        ⟨hjs, by omega, by omega⟩
      have hstep : (0 : ℚ) < (step : ℚ) := by exact_mod_cast (by omega : (0 : ℤ) < step)
      have ht0 : (0 : ℚ) ≤ (j : ℚ) / (step : ℚ) :=
        div_nonneg (by exact_mod_cast (by omega : (0 : ℤ) ≤ j)) (le_of_lt hstep)
      have ht1 : (j : ℚ) / (step : ℚ) ≤ 1 := by
        rw [div_le_one hstep]; exact_mod_cast le_of_lt hjs
      obtain ⟨pose, hpose⟩ := interpolateLoop_total ((j : ℚ) / (step : ℚ)) sj ej hlen
      obtain ⟨wp, hwp⟩ := at?_some_of_range cart_points_ (start_index + j) (by omega) (by omega)
      have hjp : interpolateJointPose sj ej ((j : ℚ) / (step : ℚ)) rough = some (true, pose) := by
        rw [interpolateJointPose_inside sj ej _ rough ht0 ht1, hpose]; rfl
      cases hcl : R.getClosestJointPose wp pose with
      | none =>
        refine ⟨some (.REPLAN k (start_index + j)), pose, jm, ?_, Or.inr ⟨j, le_refl _, hjs, rfl,
          ⟨wp, pose, hwp, hpose, hcl⟩, ?_⟩⟩
        · simp only [interpolateSegment, hcond, and_self, if_true, hjp, hwp, hcl]
        · intro q' h1 h2; omega
      | some aprox =>
        obtain ⟨res, rough', jm', hrun, hres⟩ :=
          ih (j + 1) pose (jm.insert wp.id ⟨aprox⟩) (by omega) (by push_cast at hrem ⊢; omega)
        refine ⟨res, rough', jm', ?_, ?_⟩
        · simp only [interpolateSegment, hcond, and_self, if_true, hjp, hwp, hcl]
          exact hrun
        · have hacc : OffsetAccepted R cart_points_ start_index step sj ej j :=
            ⟨wp, pose, hwp, hpose, by simp [hcl]⟩
          rcases hres with ⟨hnone, hall⟩ | ⟨q, hq1, hq2, hq3, hq4, hq5⟩
          · refine Or.inl ⟨hnone, ?_⟩
            intro q h1 h2
            by_cases hqj : q = j
            · subst hqj; exact hacc
            · exact hall q (by omega) h2
          · refine Or.inr ⟨q, by omega, hq2, hq3, hq4, ?_⟩
            intro q' h1 h2
            by_cases hqj : q' = j
            · subst hqj; exact hacc
            · exact hq5 q' (by omega) h2
    · refine ⟨none, rough, jm, ?_, Or.inl ⟨rfl, ?_⟩⟩
      · have hcond : ¬ (j < step ∧ 0 ≤ start_index + j ∧ start_index + j < cart_points_.length) :=
          fun h => hjs h.1
        simp only [interpolateSegment, hcond, if_false]
      · intro q h1 h2; omega


theorem at?_bounds {α : Type} (v : List α) (i : Int) (x : α) (h : at? v i = some x) :
    0 ≤ i ∧ i < v.length ∧ v[i.toNat]? = some x := by
  unfold at? at h
  by_cases h0 : 0 ≤ i
  · simp only [h0, if_true] at h
    have hlt : i.toNat < v.length := by
      by_contra hcon
      rw [List.getElem?_eq_none (by omega)] at h
      exact absurd h (by simp)
    exact ⟨h0, by omega, h⟩
  · simp [h0] at h

theorem at?_mem {α : Type} (v : List α) (i : Int) (x : α) (h : at? v i = some x) : x ∈ v :=
  List.getElem?_mem (at?_bounds v i x h).2.2

theorem sorted_at (table : SolutionArray) (hsorted : table.Pairwise (fun a b => a.1 < b.1))
    (i j : Int) (a b : SolutionEntry) (ha : at? table i = some a) (hb : at? table j = some b)
    (hij : i < j) : a.1 < b.1 := by
  obtain ⟨hi0, hi1, hia⟩ := at?_bounds table i a ha
  obtain ⟨hj0, hj1, hjb⟩ := at?_bounds table j b hb
  have hi' : i.toNat < table.length := by omega
  have hj' : j.toNat < table.length := by omega
  rw [List.getElem?_eq_getElem hi'] at hia
  rw [List.getElem?_eq_getElem hj'] at hjb
  have := (List.pairwise_iff_getElem.1 hsorted) i.toNat j.toNat hi' hj' (by omega)
  rw [Option.some.inj hia, Option.some.inj hjb] at this
  exact this

theorem offset_exclusive (R : RobotModel) (cart_points_ : List TrajectoryPt)
    (start_index step : Int) (sj ej : List ℚ) (q : Int)
    (hacc : OffsetAccepted R cart_points_ start_index step sj ej q)
    (hrej : OffsetRejected R cart_points_ start_index step sj ej q) : False := by
  obtain ⟨wp, pose, h1, h2, h3⟩ := hacc
  obtain ⟨wp', pose', h1', h2', h3'⟩ := hrej
  rw [h1] at h1'
  rw [h2] at h2'
  cases Option.some.inj h1'
  cases Option.some.inj h2'
  rw [h3'] at h3
  simp at h3

theorem rejected_of_offset (R : RobotModel) (cart_points_ : List TrajectoryPt)
    (table : SolutionArray) (k : Int) (a b : SolutionEntry)
    (ha : at? table (k - 1) = some a) (hb : at? table k = some b) (q : Int)
    (hq1 : 1 ≤ q) (hq2 : q < b.1 - a.1)
    (h : OffsetRejected R cart_points_ a.1 (b.1 - a.1) (nominalPose R a) (nominalPose R b) q) :
    Rejected R cart_points_ table k (a.1 + q) := by
  obtain ⟨wp, pose, h1, h2, h3⟩ := h
  refine ⟨wp, pose, ⟨a, b, ha, hb, by omega, by omega, h1, ?_⟩, h3⟩
  unfold interpolatedPose
  rw [show a.1 + q - a.1 = q by omega]
  exact h2

theorem offset_of_rejected (R : RobotModel) (cart_points_ : List TrajectoryPt)
    (table : SolutionArray) (k p : Int) (a b : SolutionEntry)
    (ha : at? table (k - 1) = some a) (hb : at? table k = some b)
    (h : Rejected R cart_points_ table k p) :
    1 ≤ p - a.1 ∧ p - a.1 < b.1 - a.1
    ∧ OffsetRejected R cart_points_ a.1 (b.1 - a.1) (nominalPose R a) (nominalPose R b)
        (p - a.1) := by
  obtain ⟨wp, pose, ⟨a', b', ha', hb', h1, h2, h3, h4⟩, h5⟩ := h
  rw [ha] at ha'
  rw [hb] at hb'
  cases Option.some.inj ha'
  cases Option.some.inj hb'
  refine ⟨by omega, by omega, wp, pose, ?_, h4, h5⟩
  rw [show a.1 + (p - a.1) = p by omega]
  exact h3

theorem interpolatePairs_scan (R : RobotModel) (cart_points_ : List TrajectoryPt)
    (table : SolutionArray) (hsorted : table.Pairwise (fun a b => a.1 < b.1))
    (hvalid : ∀ e ∈ table, 0 ≤ e.1 ∧ e.1 < cart_points_.length)
    (hdim : ∀ a ∈ table, ∀ b ∈ table, (nominalPose R a).length = (nominalPose R b).length) :
    ∀ (suffix : SolutionArray) (k0 : ℕ) (rough : List ℚ) (jm : JointMap),
      table.drop k0 = suffix →
      (∀ k' p', Rejected R cart_points_ table k' p' → (k0 : ℤ) + 1 ≤ k') →
      ∃ res jm', interpolatePairs R cart_points_ ((k0 : ℤ) + 1) suffix rough jm = some (res, jm')
        ∧ ((res = .SUCCESS ∧ ∀ k' p', ¬ Rejected R cart_points_ table k' p')
          ∨ (∃ k p, res = .REPLAN k p ∧ Rejected R cart_points_ table k p
              ∧ ∀ k' p', Rejected R cart_points_ table k' p' → p ≤ p')) := by
  intro suffix
  induction suffix with
  | nil =>
    intro k0 rough jm hdrop hinv
    refine ⟨.SUCCESS, jm, rfl, Or.inl ⟨rfl, ?_⟩⟩
    intro k' p' hrej
    have hk := hinv k' p' hrej
    obtain ⟨wp, pose, ⟨a, b, ha, hb, _⟩, _⟩ := hrej
    have hb' := (at?_bounds table k' b hb).2.1
    have hlen : table.length ≤ k0 := List.drop_eq_nil_iff.1 hdrop
    omega
  | cons a tail ih =>
    intro k0 rough jm hdrop hinv
    have ha0 : table[k0]? = some a := by
      have := List.getElem?_drop (L := table) (i := k0) (j := 0)
      rw [hdrop] at this
      simpa using this.symm
    have htail : table.drop (k0 + 1) = tail := by
      rw [← List.drop_drop, hdrop]; rfl
    cases tail with
    | nil =>
      refine ⟨.SUCCESS, jm, rfl, Or.inl ⟨rfl, ?_⟩⟩
      intro k' p' hrej
      have hk := hinv k' p' hrej
      obtain ⟨wp, pose, ⟨a', b, ha', hb, _⟩, _⟩ := hrej
      have hb' := (at?_bounds table k' b hb).2.1
      have hlen : table.length ≤ k0 + 1 := List.drop_eq_nil_iff.1 htail
      omega
    | cons b rest =>
      have hb0 : table[k0 + 1]? = some b := by
        have := List.getElem?_drop (L := table) (i := k0 + 1) (j := 0)
        rw [htail] at this
        simpa using this.symm
      have hat_a : at? table ((k0 : ℤ) + 1 - 1) = some a := by
        rw [show (k0 : ℤ) + 1 - 1 = (k0 : ℤ) by omega, at?_natCast]; exact ha0
      have hat_b : at? table ((k0 : ℤ) + 1) = some b := by
        rw [show (k0 : ℤ) + 1 = ((k0 + 1 : ℕ) : ℤ) by push_cast; rfl, at?_natCast]; exact hb0
      have hamem : a ∈ table := at?_mem _ _ _ hat_a
      have hbmem : b ∈ table := at?_mem _ _ _ hat_b
      have hab : a.1 < b.1 := sorted_at table hsorted _ _ a b hat_a hat_b (by omega)
      have hva := hvalid a hamem
      have hvb := hvalid b hbmem
      obtain ⟨res, rough', jm', hrun, hres⟩ :=
        interpolateSegment_scan R cart_points_ ((k0 : ℤ) + 1) a.1 (b.1 - a.1)
          (nominalPose R a) (nominalPose R b) (le_of_eq (hdim a hamem b hbmem)) hva.1
          (by omega) (b.1 - a.1).toNat 1 rough (jm.insert a.2.1.id a.2.2) (le_refl _) (by omega)
      have hrun' : interpolateSegment R cart_points_ ((k0 : ℤ) + 1) a.1 (b.1 - a.1)
          (R.getNominalJointPose a.2.2 (List.replicate R.getDOF 0))
          (R.getNominalJointPose b.2.2 (List.replicate R.getDOF 0))
          (b.1 - a.1).toNat 1 rough (jm.insert a.2.1.id a.2.2) = some (res, rough', jm') := hrun
      rcases hres with ⟨hnone, hall⟩ | ⟨q, hq1, hq2, hq3, hq4, hq5⟩
      · subst hnone
        have hinv' : ∀ k' p', Rejected R cart_points_ table k' p' →
            ((k0 + 1 : ℕ) : ℤ) + 1 ≤ k' := by
          intro k' p' hrej
          have hk := hinv k' p' hrej
          by_contra hcon
          have hkeq : k' = (k0 : ℤ) + 1 := by push_cast at hcon; omega
          subst hkeq
          obtain ⟨h1, h2, h3⟩ := offset_of_rejected R cart_points_ table _ p' a b hat_a hat_b hrej
          exact offset_exclusive R cart_points_ _ _ _ _ _ (hall _ h1 h2) h3
        obtain ⟨res2, jm2, hrun2, hres2⟩ :=
          ih (k0 + 1) rough' (jm'.insert b.2.1.id a.2.2) htail hinv'
        refine ⟨res2, jm2, ?_, hres2⟩
        simp only [interpolatePairs, hrun']
        rw [show (k0 : ℤ) + 1 + 1 = ((k0 + 1 : ℕ) : ℤ) + 1 by push_cast; rfl]
        exact hrun2
      · subst hq3
        refine ⟨.REPLAN ((k0 : ℤ) + 1) (a.1 + q), jm', ?_, Or.inr ⟨_, _, rfl, ?_, ?_⟩⟩
        · simp only [interpolatePairs, hrun']
        · exact rejected_of_offset R cart_points_ table _ a b hat_a hat_b q hq1 hq2 hq4
        · intro k' p' hrej
          have hk := hinv k' p' hrej
          by_cases hkeq : k' = (k0 : ℤ) + 1
          · subst hkeq
            obtain ⟨h1, h2, h3⟩ :=
              offset_of_rejected R cart_points_ table _ p' a b hat_a hat_b hrej
            by_contra hcon
            exact offset_exclusive R cart_points_ _ _ _ _ _ (hq5 _ h1 (by omega)) h3
          · obtain ⟨wp, pose, ⟨a', b', ha', hb', h1, h2, h3, h4⟩, h5⟩ := hrej
            have hle : b.1 ≤ a'.1 := by
              by_cases hidx : k' - 1 = (k0 : ℤ) + 1
              · rw [hidx, hat_b] at ha'
                cases Option.some.inj ha'
                exact le_refl _
              · exact le_of_lt (sorted_at table hsorted _ _ b a' hat_b ha' (by omega))
            omega

theorem rejected_index_unique (R : RobotModel) (cart_points_ : List TrajectoryPt)
    (table : SolutionArray) (hsorted : table.Pairwise (fun a b => a.1 < b.1))
    (k k0 p : Int) (h : Rejected R cart_points_ table k p)
    (h0 : Rejected R cart_points_ table k0 p) : k = k0 := by
  obtain ⟨_, _, ⟨a, b, ha, hb, h1, h2, _⟩, _⟩ := h
  obtain ⟨_, _, ⟨a0, b0, ha0, hb0, h10, h20, _⟩, _⟩ := h0
  by_contra hne
  rcases lt_or_gt_of_ne hne with hlt | hgt
  · have hle : b.1 ≤ a0.1 := by
      by_cases hidx : k = k0 - 1
      · rw [hidx, ha0] at hb
        cases Option.some.inj hb
        exact le_refl _
      · exact le_of_lt (sorted_at table hsorted _ _ b a0 hb ha0 (by omega))
    omega
  · have hle : b0.1 ≤ a.1 := by
      by_cases hidx : k0 = k - 1
      · rw [hidx, ha] at hb0
        cases Option.some.inj hb0
        exact le_refl _
      · exact le_of_lt (sorted_at table hsorted _ _ b0 a hb0 ha (by omega))
    omega

/-! ### Index utilities -/

theorem findIf_some {α : Type} (p : α → Bool) :
    ∀ (l : List α) (i : ℕ), findIf p l = some i → ∃ x, l[i]? = some x ∧ p x = true := by
  intro l
  induction l with
  | nil => intro i h; simp [findIf] at h
  | cons x xs ih =>
    intro i h
    unfold findIf at h
    by_cases hx : p x = true
    · simp only [hx, if_true, Option.some.injEq] at h
      subst h
      exact ⟨x, by simp, hx⟩
    · simp only [hx, Bool.false_eq_true, if_false] at h
      cases hf : findIf p xs with
      | none => rw [hf] at h; simp at h
      | some j =>
        rw [hf] at h
        simp only [Option.map_some', Option.some.injEq] at h
        subst h
        obtain ⟨y, hy, hpy⟩ := ih j hf
        exact ⟨y, by simpa using hy, hpy⟩

theorem findIf_of_mem {α : Type} (p : α → Bool) :
    ∀ (l : List α), (∃ x ∈ l, p x = true) → ∃ i, findIf p l = some i := by
  intro l
  induction l with
  | nil => rintro ⟨x, hx, _⟩; simp at hx
  | cons x xs ih =>
    rintro ⟨y, hy, hpy⟩
    unfold findIf
    by_cases hx : p x = true
    · exact ⟨0, by simp [hx]⟩
    · rcases List.mem_cons.1 hy with rfl | hmem
      · exact absurd hpy hx
      · obtain ⟨i, hi⟩ := ih ⟨y, hmem, hpy⟩
        exact ⟨i + 1, by simp [hx, hi]⟩

theorem getDensePointIndex_cases (cart_points_ : List TrajectoryPt) (ref_id : ID) :
    getDensePointIndex cart_points_ ref_id = INVALID_INDEX
    ∨ ∃ (i : ℕ) (wp : TrajectoryPt), getDensePointIndex cart_points_ ref_id = (i : ℤ)
        ∧ cart_points_[i]? = some wp ∧ wp.id = ref_id := by
  unfold getDensePointIndex
  cases h : findIf (fun cp : TrajectoryPt => ref_id == cp.id) cart_points_ with
  | none => exact Or.inl rfl
  | some i =>
    obtain ⟨x, hx, hp⟩ := findIf_some _ _ _ h
    exact Or.inr ⟨i, x, rfl, hx, (beq_iff_eq.1 hp).symm⟩

theorem getDensePointIndex_found (cart_points_ : List TrajectoryPt) (ref_id : ID)
    (h : ∃ q ∈ cart_points_, q.id = ref_id) :
    ∃ (i : ℕ) (wp : TrajectoryPt), getDensePointIndex cart_points_ ref_id = (i : ℤ)
      ∧ cart_points_[i]? = some wp ∧ wp.id = ref_id := by
  obtain ⟨q, hq, hid⟩ := h
  obtain ⟨i, hi⟩ := findIf_of_mem (fun cp : TrajectoryPt => ref_id == cp.id) cart_points_
    ⟨q, hq, by simp [hid]⟩
  obtain ⟨x, hx, hp⟩ := findIf_some _ _ _ hi
  exact ⟨i, x, by simp [getDensePointIndex, hi], hx, (beq_iff_eq.1 hp).symm⟩

theorem natCast_ne_invalid (i : ℕ) : ((i : ℤ) = INVALID_INDEX) = False := by
  simp only [INVALID_INDEX, eq_iff_iff, iff_false]
  omega

/-! ### Refinement loop -/

theorem planLoop_cart_points {G : Type} (R : RobotModel) (P : PlanningGraph G) :
    ∀ (n : ℕ) (s : SparsePlanner G) (r : Bool × SparsePlanner G),
      planLoop R P n s = some r → r.2.cart_points_ = s.cart_points_ := by
  intro n
  induction n with
  | zero =>
    intro s r h
    simp only [planLoop, Option.some.injEq] at h
    rw [← h]
  | succ n ih =>
    intro s r h
    unfold planLoop at h
    simp only [callShortestPath, callAddTrajectory] at h
    split at h
    · exact absurd h (by simp)
    · simp only [Option.some.injEq] at h; rw [← h]
    · split at h
      · exact absurd h (by simp)
      · split at h
        · split at h
          · split at h
            · split at h
              · have h2 := ih _ _ h
                exact h2
              · simp only [Option.some.injEq] at h; rw [← h]
            · split at h
              · split at h
                · have h2 := ih _ _ h
                  exact h2
                · simp only [Option.some.injEq] at h; rw [← h]
              · exact absurd h (by simp)
          · exact absurd h (by simp)
        · simp only [Option.some.injEq] at h; rw [← h]
        · simp only [Option.some.injEq] at h; rw [← h]

theorem plan_cart_points {G : Type} (R : RobotModel) (P : PlanningGraph G)
    (s : SparsePlanner G) (r : Bool × SparsePlanner G) (h : plan R P s = some r) :
    r.2.cart_points_ = s.cart_points_ := by
  unfold plan at h
  cases hl : planLoop R P MAX_REPLANNING_ATTEMPTS s with
  | none => rw [hl] at h; simp at h
  | some r0 =>
    rw [hl] at h
    simp only [Option.map_some', Option.some.injEq] at h
    rw [← h]
    exact planLoop_cart_points R P _ s r0 hl

/-! ### Table rebuild -/

theorem fillSolutionArray_entries (cart_points_ sparse_cart_points : List TrajectoryPt) (i : ℕ)
    (Q : SolutionEntry → Prop)
    (hQ : ∀ (cp : TrajectoryPt) (jp : JointTrajectoryPt),
      getDensePointIndex cart_points_ cp.id ≠ INVALID_INDEX →
      Q (getDensePointIndex cart_points_ cp.id, cp, jp)) :
    ∀ (jps : List JointTrajectoryPt) (acc arr : SolutionArray),
      fillSolutionArray cart_points_ sparse_cart_points i jps acc = some (true, arr) →
      (∀ e ∈ acc, Q e) → ∀ e ∈ arr, Q e := by
  intro jps
  induction jps with
  | nil =>
    intro acc arr h hacc
    simp only [fillSolutionArray, Option.some.injEq, Prod.mk.injEq, true_and] at h
    rw [← h]; exact hacc
  | cons jp rest ih =>
    intro acc arr h hacc
    unfold fillSolutionArray at h
    cases hcp : sparse_cart_points[i]? with
    | none => rw [hcp] at h; simp at h
    | some cp =>
      rw [hcp] at h
      by_cases hinv : getDensePointIndex cart_points_ cp.id = INVALID_INDEX
      · simp [hinv] at h
      · simp only [hinv, if_false] at h
        refine ih _ _ h ?_
        intro e he
        rcases List.mem_append.1 he with h1 | h1
        · exact hacc e h1
        · rw [List.mem_singleton] at h1
          rw [h1]; exact hQ cp jp hinv

/-! ### Dense splice -/

theorem insertAt_facts (v : List TrajectoryPt) (i : ℕ) (cp : TrajectoryPt) (hi : i ≤ v.length) :
    (insertAt v i cp).length = v.length + 1 ∧ v.Sublist (insertAt v i cp) := by
  unfold insertAt
  constructor
  · simp only [List.length_append, List.length_take, List.length_cons, List.length_drop]
    omega
  · have h : (v.take i ++ v.drop i).Sublist (v.take i ++ cp :: v.drop i) :=
      List.Sublist.append (List.Sublist.refl _) (List.sublist_cons_self cp _)
    rwa [List.take_append_drop] at h

/-! ### Bounded refinement -/

theorem planTrace_agrees {G : Type} (R : RobotModel) (P : PlanningGraph G) :
    ∀ (n : ℕ) (s : SparsePlanner G), (planTrace R P n s).2 = planLoop R P n s := by
  intro n
  induction n with
  | zero => intro s; rfl
  | succ n ih =>
    intro s
    unfold planTrace planLoop
    simp only
    split
    · rfl
    · rfl
    · split
      · rfl
      · split
        · split
          · split
            · split
              · exact ih _
              · rfl
            · split
              · split
                · exact ih _
                · rfl
              · rfl
          · rfl
        · rfl
        · rfl

theorem planEvent_count_step (t : List PlanEvent) (n : ℕ)
    (h : t.count PlanEvent.rebuild ≤ n ∧ t.count PlanEvent.validation ≤ n
      ∧ t.count PlanEvent.promotion ≤ n) :
    (PlanEvent.rebuild :: PlanEvent.validation :: PlanEvent.promotion :: t).count
        PlanEvent.rebuild ≤ n + 1
    ∧ (PlanEvent.rebuild :: PlanEvent.validation :: PlanEvent.promotion :: t).count
        PlanEvent.validation ≤ n + 1
    ∧ (PlanEvent.rebuild :: PlanEvent.validation :: PlanEvent.promotion :: t).count
        PlanEvent.promotion ≤ n + 1 := by
  simp only [List.count_cons_self, List.count_cons_of_ne, ne_eq, reduceCtorEq,
    not_false_eq_true]
  omega

theorem planTrace_counts {G : Type} (R : RobotModel) (P : PlanningGraph G) :
    ∀ (n : ℕ) (s : SparsePlanner G),
      (planTrace R P n s).1.count PlanEvent.rebuild ≤ n
      ∧ (planTrace R P n s).1.count PlanEvent.validation ≤ n
      ∧ (planTrace R P n s).1.count PlanEvent.promotion ≤ n := by
  intro n
  induction n with
  | zero => intro s; simp [planTrace]
  | succ n ih =>
    intro s
    unfold planTrace
    simp only
    split
    · simp
    · simp
    · split
      · simp
      · split
        · split
          · split
            · split
              · exact planEvent_count_step _ _ (ih _)
              · simp
            · split
              · split
                · exact planEvent_count_step _ _ (ih _)
                · simp
              · simp
          · simp
        · simp
        · simp

/-! ### Shape of a `REPLAN` result and definedness of a run -/

theorem interpolateSegment_replan (R : RobotModel) (cart_points_ : List TrajectoryPt) (k : Int)
    (start_index step : Int) (sj ej : List ℚ) :
    ∀ (rem : ℕ) (j : Int) (rough : List ℚ) (jm : JointMap) (k' p : Int) (rough' : List ℚ)
      (jm' : JointMap),
      interpolateSegment R cart_points_ k start_index step sj ej rem j rough jm
        = some (some (InterpolationResult.REPLAN k' p), rough', jm') →
      1 ≤ j →
      k' = k ∧ start_index + 1 ≤ p ∧ p < start_index + step
        ∧ ∃ wp, at? cart_points_ p = some wp := by
  intro rem
  induction rem with
  | zero =>
    intro j rough jm k' p rough' jm' h _
    simp [interpolateSegment] at h
  | succ rem ih =>
    intro j rough jm k' p rough' jm' h hj
    unfold interpolateSegment at h
    by_cases hcond : j < step ∧ 0 ≤ start_index + j ∧ start_index + j < cart_points_.length
    · simp only [hcond, and_self, if_true] at h
      cases hp : interpolateJointPose sj ej ((j : ℚ) / (step : ℚ)) rough with
      | none => rw [hp] at h; simp at h
      | some r =>
        obtain ⟨b, pose⟩ := r
        rw [hp] at h
        cases b with
        | false => simp at h
        | true =>
          simp only at h
          cases hw : at? cart_points_ (start_index + j) with
          | none => rw [hw] at h; simp at h
          | some wp =>
            rw [hw] at h
            simp only at h
            cases hc : R.getClosestJointPose wp pose with
            | none =>
              rw [hc] at h
              simp only [Option.some.injEq, Prod.mk.injEq, InterpolationResult.REPLAN.injEq] at h
              obtain ⟨⟨hk, hpp⟩, _, _⟩ := h
              subst hk; subst hpp
              exact ⟨rfl, by omega, by omega, wp, hw⟩
            | some aprox =>
              rw [hc] at h
              simp only at h
              obtain ⟨h1, h2, h3, h4⟩ := ih _ _ _ _ _ _ _ h (by omega)
              exact ⟨h1, by omega, h3, h4⟩
    · simp only [hcond, if_false] at h
      simp at h

theorem interpolatePairs_replan (R : RobotModel) (cart_points_ : List TrajectoryPt)
    (table : SolutionArray) :
    ∀ (suffix : SolutionArray) (k0 : ℕ) (rough : List ℚ) (jm : JointMap) (k p : Int)
      (jm' : JointMap),
      table.drop k0 = suffix →
      interpolatePairs R cart_points_ ((k0 : ℤ) + 1) suffix rough jm
        = some (InterpolationResult.REPLAN k p, jm') →
      1 ≤ k ∧ ∃ prev next wp, at? table (k - 1) = some prev ∧ at? table k = some next
        ∧ at? cart_points_ p = some wp ∧ prev.1 < p ∧ p < next.1 := by
  intro suffix
  induction suffix with
  | nil =>
    intro k0 rough jm k p jm' _ h
    simp [interpolatePairs] at h
  | cons a tail ih =>
    intro k0 rough jm k p jm' hdrop h
    have ha0 : table[k0]? = some a := by
      have := List.getElem?_drop (L := table) (i := k0) (j := 0)
      rw [hdrop] at this
      simpa using this.symm
    have htail : table.drop (k0 + 1) = tail := by
      rw [← List.drop_drop, hdrop]; rfl
    cases tail with
    | nil => simp [interpolatePairs] at h
    | cons b rest =>
      have hb0 : table[k0 + 1]? = some b := by
        have := List.getElem?_drop (L := table) (i := k0 + 1) (j := 0)
        rw [htail] at this
        simpa using this.symm
      have hat_a : at? table ((k0 : ℤ) + 1 - 1) = some a := by
        rw [show (k0 : ℤ) + 1 - 1 = (k0 : ℤ) by omega, at?_natCast]; exact ha0
      have hat_b : at? table ((k0 : ℤ) + 1) = some b := by
        rw [show (k0 : ℤ) + 1 = ((k0 + 1 : ℕ) : ℤ) by push_cast; rfl, at?_natCast]; exact hb0
      simp only [interpolatePairs] at h
      split at h
      · simp at h
      · next r rough2 map2 hseg =>
        simp only [Option.some.injEq, Prod.mk.injEq] at h
        obtain ⟨hr, _⟩ := h
        subst hr
        obtain ⟨hk, h1, h2, wp, hwp⟩ :=
          interpolateSegment_replan R cart_points_ _ _ _ _ _ _ _ _ _ _ _ _ _ hseg (le_refl _)
        subst hk
        exact ⟨by omega, a, b, wp, hat_a, hat_b, hwp, by omega, by omega⟩
      · next rough2 map2 hseg =>
        have h2 : interpolatePairs R cart_points_ (((k0 + 1 : ℕ) : ℤ) + 1) (b :: rest) rough2
            (map2.insert b.2.1.id a.2.2) = some (InterpolationResult.REPLAN k p, jm') := by
          rw [show ((k0 + 1 : ℕ) : ℤ) + 1 = (k0 : ℤ) + 1 + 1 by push_cast; rfl]
          exact h
        exact ih (k0 + 1) _ _ k p jm' htail h2

theorem interpolateSparseTrajectory_replan (R : RobotModel) (cart_points_ : List TrajectoryPt)
    (table : SolutionArray) (k p : Int) (jm : JointMap)
    (h : interpolateSparseTrajectory R cart_points_ table
      = some (InterpolationResult.REPLAN k p, jm)) :
    1 ≤ k ∧ ∃ prev next wp, at? table (k - 1) = some prev ∧ at? table k = some next
      ∧ at? cart_points_ p = some wp ∧ prev.1 < p ∧ p < next.1 := by
  unfold interpolateSparseTrajectory at h
  exact interpolatePairs_replan R cart_points_ table table 0 [] [] k p jm rfl
    (by simpa using h)

theorem interpolateSegment_defined (R : RobotModel) (cart_points_ : List TrajectoryPt) (k : Int)
    (start_index step : Int) (sj ej : List ℚ) (hlen : sj.length = ej.length) :
    ∀ (rem : ℕ) (j : Int) (rough : List ℚ) (jm : JointMap),
      ∃ r, interpolateSegment R cart_points_ k start_index step sj ej rem j rough jm = some r := by
  intro rem
  induction rem with
  | zero => intro j rough jm; exact ⟨_, rfl⟩
  | succ rem ih =>
    intro j rough jm
    unfold interpolateSegment
    by_cases hcond : j < step ∧ 0 ≤ start_index + j ∧ start_index + j < cart_points_.length
    · simp only [hcond, and_self, if_true]
      obtain ⟨pose, hpose⟩ := interpolateLoop_total ((j : ℚ) / (step : ℚ)) sj ej (le_of_eq hlen)
      have hjp : interpolateJointPose sj ej ((j : ℚ) / (step : ℚ)) rough = some (true, pose) := by
        unfold interpolateJointPose
        simp [hlen, hpose]
      obtain ⟨wp, hwp⟩ := at?_some_of_range cart_points_ (start_index + j) hcond.2.1 hcond.2.2
      simp only [hjp, hwp]
      cases hc : R.getClosestJointPose wp pose with
      | none => exact ⟨_, rfl⟩
      | some aprox => exact ih _ _ _
    · simp only [hcond, if_false]
      exact ⟨_, rfl⟩

theorem interpolatePairs_defined (R : RobotModel) (cart_points_ : List TrajectoryPt)
    (hR : ∀ (j : JointTrajectoryPt) (seed : List ℚ),
      (R.getNominalJointPose j seed).length = R.getDOF) :
    ∀ (suffix : SolutionArray) (k : Int) (rough : List ℚ) (jm : JointMap),
      ∃ r, interpolatePairs R cart_points_ k suffix rough jm = some r := by
  intro suffix
  induction suffix with
  | nil => intro k rough jm; exact ⟨_, rfl⟩
  | cons a tail ih =>
    intro k rough jm
    cases tail with
    | nil => exact ⟨_, rfl⟩
    | cons b rest =>
      simp only [interpolatePairs]
      obtain ⟨r, hr⟩ := interpolateSegment_defined R cart_points_ k a.1 (b.1 - a.1)
        (R.getNominalJointPose a.2.2 (List.replicate R.getDOF 0))
        (R.getNominalJointPose b.2.2 (List.replicate R.getDOF 0))
        (by rw [hR, hR]) (b.1 - a.1).toNat 1 rough (jm.insert a.2.1.id a.2.2)
      rw [hr]
      obtain ⟨res, rough2, map2⟩ := r
      cases res with
      | none => exact ih _ _ _
      | some x => exact ⟨_, rfl⟩

theorem fillSolutionArray_defined (cart_points_ sparse_cart_points : List TrajectoryPt)
    (c : TrajectoryPt) (hc : sparse_cart_points[0]? = some c) :
    ∀ (jps : List JointTrajectoryPt) (acc : SolutionArray),
      ∃ r, fillSolutionArray cart_points_ sparse_cart_points 0 jps acc = some r := by
  intro jps
  induction jps with
  | nil => intro acc; exact ⟨_, rfl⟩
  | cons jp rest ih =>
    intro acc
    unfold fillSolutionArray
    simp only [hc]
    split
    · exact ⟨_, rfl⟩
    · exact ih _

theorem getSparseSolutionArray_defined (cart_points_ : List TrajectoryPt)
    (shortest_path : Option (List JointTrajectoryPt)) (cart_map : CartesianMap)
    (old : SolutionArray) :
    ∃ r, getSparseSolutionArray cart_points_ shortest_path cart_map old = some r := by
  unfold getSparseSolutionArray
  cases shortest_path with
  | none => exact ⟨_, rfl⟩
  | some jps =>
    simp only
    cases hw : getOrderedSparseCartesianArray cart_map with
    | none => exact ⟨_, rfl⟩
    | some scp =>
      by_cases hlen : jps.length ≠ scp.length
      · simp only; rw [if_pos hlen]; exact ⟨_, rfl⟩
      · simp only; rw [if_neg hlen]
        cases jps with
        | nil => exact ⟨_, rfl⟩
        | cons jp rest =>
          cases scp with
          | nil => simp at hlen
          | cons c cs => exact fillSolutionArray_defined cart_points_ (c :: cs) c (by simp) _ _

theorem planLoop_defined {G : Type} (R : RobotModel) (P : PlanningGraph G)
    (hR : ∀ (j : JointTrajectoryPt) (seed : List ℚ),
      (R.getNominalJointPose j seed).length = R.getDOF) :
    ∀ (n : ℕ) (s : SparsePlanner G), ∃ r, planLoop R P n s = some r := by
  intro n
  induction n with
  | zero => intro s; exact ⟨_, rfl⟩
  | succ n ih =>
    intro s
    unfold planLoop
    simp only
    obtain ⟨r1, hr1⟩ := getSparseSolutionArray_defined (callShortestPath P s).2.cart_points_
      (callShortestPath P s).1 (P.getCartesianMap (callShortestPath P s).2.graph)
      (callShortestPath P s).2.sparse_solution_array_
    rw [hr1]
    obtain ⟨ok, arr⟩ := r1
    cases ok with
    | false => exact ⟨_, rfl⟩
    | true =>
      simp only
      obtain ⟨r2, hr2⟩ := interpolatePairs_defined R (callShortestPath P s).2.cart_points_ hR
        arr 1 [] []
      have hr2' : interpolateSparseTrajectory R (callShortestPath P s).2.cart_points_ arr
          = some r2 := hr2
      rw [hr2']
      obtain ⟨result, jmap⟩ := r2
      cases result with
      | ERROR => exact ⟨_, rfl⟩
      | SUCCESS => exact ⟨_, rfl⟩
      | REPLAN k p =>
        obtain ⟨hk, prev, next, wp, hprev, hnext, hwp, _, _⟩ :=
          interpolateSparseTrajectory_replan R _ arr k p jmap hr2'
        have hk0 : (k = 0) = False := by
          simp only [eq_iff_iff, iff_false]; omega
        simp only [hwp, hnext, hk0, if_false, hprev]
        split
        · exact ih _
        · exact ⟨_, rfl⟩

/-! ### The `REPLAN` case of the loop -/

theorem planLoop_uses_caseREPLAN {G : Type} (R : RobotModel) (P : PlanningGraph G) (n : ℕ)
    (s : SparsePlanner G) :
    planLoop R P (n + 1) s
      = match getSparseSolutionArray (callShortestPath P s).2.cart_points_
            (callShortestPath P s).1 (P.getCartesianMap (callShortestPath P s).2.graph)
            (callShortestPath P s).2.sparse_solution_array_ with
        | none => none
        | some (false, arr) =>
          some (false, { (callShortestPath P s).2 with sparse_solution_array_ := arr })
        | some (true, arr) =>
          match interpolateSparseTrajectory R (callShortestPath P s).2.cart_points_ arr with
          | none => none
          | some (InterpolationResult.REPLAN k p, jm) =>
            match caseREPLAN P { (callShortestPath P s).2 with
                sparse_solution_array_ := arr, joint_points_map_ := jm } k p with
            | none => none
            | some a =>
              if a.1 then planLoop R P n { a.2 with sparse_solution_array_ := [] }
              else some (false, a.2)
          | some (InterpolationResult.SUCCESS, jm) =>
            some (true, { (callShortestPath P s).2 with
              sparse_solution_array_ := arr, joint_points_map_ := jm })
          | some (InterpolationResult.ERROR, jm) =>
            some (false, { (callShortestPath P s).2 with
              sparse_solution_array_ := arr, joint_points_map_ := jm }) := by
  rw [planLoop]
  simp only
  cases getSparseSolutionArray (callShortestPath P s).2.cart_points_ (callShortestPath P s).1
      (P.getCartesianMap (callShortestPath P s).2.graph)
      (callShortestPath P s).2.sparse_solution_array_ with
  | none => rfl
  | some r =>
    obtain ⟨b, arr⟩ := r
    cases b with
    | false => rfl
    | true =>
      simp only
      cases interpolateSparseTrajectory R (callShortestPath P s).2.cart_points_ arr with
      | none => rfl
      | some r2 =>
        obtain ⟨res, jm⟩ := r2
        cases res with
        | ERROR => rfl
        | SUCCESS => rfl
        | REPLAN k p =>
          unfold caseREPLAN
          simp only
          cases at? (callShortestPath P s).2.cart_points_ p with
          | none => rfl
          | some cart_point =>
            cases at? arr k with
            | none => rfl
            | some next =>
              simp only
              by_cases hk : k = 0
              · simp only [hk, if_true]
              · simp only [hk, if_false]
                cases at? arr (k - 1) with
                | none => rfl
                | some prev => rfl

theorem getDensePointIndex_of_nodup (cart_points_ : List TrajectoryPt)
    (hids : (cart_points_.map (fun q => q.id)).Nodup) (i : ℕ) (wp : TrajectoryPt)
    (hwp : cart_points_[i]? = some wp) :
    getDensePointIndex cart_points_ wp.id = (i : ℤ) := by
  obtain ⟨i', wp', hi', hwp', hid⟩ :=
    getDensePointIndex_found cart_points_ wp.id ⟨wp, List.getElem?_mem hwp, rfl⟩
  obtain ⟨hlt, hget⟩ := List.getElem?_eq_some_iff.1 hwp
  obtain ⟨hlt', hget'⟩ := List.getElem?_eq_some_iff.1 hwp'
  have : i' = i := getElem_id_inj cart_points_ hids i' i hlt' hlt (by rw [hget', hget, hid])
  rw [hi', this]

/-! ### Keys of the joint-pose map after a successful validation -/

theorem JointMap.contains_insert (m : JointMap) (k : ID) (v : JointTrajectoryPt) (x : ID) :
    (m.insert k v).contains x = true ↔ m.contains x = true ∨ x = k := by
  unfold JointMap.insert
  by_cases hk : m.contains k = true
  · simp only [hk, if_true]
    constructor
    · exact Or.inl
    · rintro (h | h)
      · exact h
      · rw [h]; exact hk
  · simp only [hk, Bool.false_eq_true, if_false]
    unfold JointMap.contains
    simp only [List.any_append, List.any_cons, List.any_nil, Bool.or_false, Bool.or_eq_true,
      beq_iff_eq]
    constructor
    · rintro (h | h)
      · exact Or.inl h
      · exact Or.inr h.symm
    · rintro (h | h)
      · exact Or.inl h
      · exact Or.inr h.symm

theorem getSolutionJointPoint_isSome (m : JointMap) (x : ID) :
    (getSolutionJointPoint m x).isSome = true ↔ m.contains x = true := by
  unfold getSolutionJointPoint
  by_cases h : m.contains x = true
  · simp only [h, if_true, iff_true]
    unfold JointMap.contains at h
    obtain ⟨p, hp, hpx⟩ := List.any_eq_true.1 h
    unfold JointMap.find
    cases hf : m.find? (fun p => p.1 == x) with
    | none =>
      have := List.find?_eq_none.1 hf p hp
      exact absurd hpx this
    | some q => simp
  · simp [h]

theorem interpolateSegment_keys (R : RobotModel) (cart_points_ : List TrajectoryPt) (k : Int)
    (start_index step : Int) (sj ej : List ℚ) :
    ∀ (rem : ℕ) (j : Int) (rough : List ℚ) (jm : JointMap) (rough' : List ℚ) (jm' : JointMap),
      interpolateSegment R cart_points_ k start_index step sj ej rem j rough jm
        = some (none, rough', jm') →
      step < j + rem → 0 ≤ start_index + j → start_index + step ≤ cart_points_.length →
      ∀ x, jm'.contains x = true ↔
        (jm.contains x = true
          ∨ ∃ q wp, j ≤ q ∧ q < step ∧ at? cart_points_ (start_index + q) = some wp
              ∧ wp.id = x) := by
  intro rem
  induction rem with
  | zero =>
    intro j rough jm rough' jm' h hrem _ _ x
    simp only [interpolateSegment, Option.some.injEq, Prod.mk.injEq, true_and] at h
    rw [← h.2]
    constructor
    · exact Or.inl
    · rintro (h1 | ⟨q, _, hq1, hq2, _⟩)
      · exact h1
      · omega
  | succ rem ih =>
    intro j rough jm rough' jm' h hrem hpos hend x
    unfold interpolateSegment at h
    by_cases hcond : j < step ∧ 0 ≤ start_index + j ∧ start_index + j < cart_points_.length
    · simp only [hcond, and_self, if_true] at h
      cases hp : interpolateJointPose sj ej ((j : ℚ) / (step : ℚ)) rough with
      | none => rw [hp] at h; simp at h
      | some r =>
        obtain ⟨b, pose⟩ := r
        rw [hp] at h
        cases b with
        | false => simp at h
        | true =>
          simp only at h
          cases hw : at? cart_points_ (start_index + j) with
          | none => rw [hw] at h; simp at h
          | some wp =>
            rw [hw] at h
            simp only at h
            cases hc : R.getClosestJointPose wp pose with
            | none => rw [hc] at h; simp at h
            | some aprox =>
              rw [hc] at h
              simp only at h
              have hrec := ih (j + 1) pose _ rough' jm' h (by push_cast at hrem ⊢; omega)
                (by omega) hend x
              rw [hrec, JointMap.contains_insert]
              constructor
              · rintro ((h1 | h1) | ⟨q, wq, hq1, hq2, hq3, hq4⟩)
                · exact Or.inl h1
                · exact Or.inr ⟨j, wp, le_refl _, hcond.1, hw, h1.symm⟩
                · exact Or.inr ⟨q, wq, by omega, hq2, hq3, hq4⟩
              · rintro (h1 | ⟨q, wq, hq1, hq2, hq3, hq4⟩)
                · exact Or.inl (Or.inl h1)
                · by_cases hqj : q = j
                  · subst hqj
                    rw [hw] at hq3
                    cases Option.some.inj hq3
                    exact Or.inl (Or.inr hq4.symm)
                  · exact Or.inr ⟨q, wq, by omega, hq2, hq3, hq4⟩
    · simp only [hcond, if_false, Option.some.injEq, Prod.mk.injEq, true_and] at h
      rw [← h.2]
      constructor
      · exact Or.inl
      · rintro (h1 | ⟨q, _, hq1, hq2, _⟩)
        · exact h1
        · exfalso
          apply hcond
          refine ⟨by omega, hpos, by omega⟩

theorem interpolateSegment_not_success (R : RobotModel) (cart_points_ : List TrajectoryPt)
    (k : Int) (start_index step : Int) (sj ej : List ℚ) :
    ∀ (rem : ℕ) (j : Int) (rough : List ℚ) (jm : JointMap) (r : InterpolationResult)
      (rough' : List ℚ) (jm' : JointMap),
      interpolateSegment R cart_points_ k start_index step sj ej rem j rough jm
        = some (some r, rough', jm') →
      r ≠ InterpolationResult.SUCCESS := by
  intro rem
  induction rem with
  | zero =>
    intro j rough jm r rough' jm' h
    simp [interpolateSegment] at h
  | succ rem ih =>
    intro j rough jm r rough' jm' h
    unfold interpolateSegment at h
    by_cases hcond : j < step ∧ 0 ≤ start_index + j ∧ start_index + j < cart_points_.length
    · simp only [hcond, and_self, if_true] at h
      cases hp : interpolateJointPose sj ej ((j : ℚ) / (step : ℚ)) rough with
      | none => rw [hp] at h; simp at h
      | some r0 =>
        obtain ⟨b, pose⟩ := r0
        rw [hp] at h
        cases b with
        | false =>
          simp only [Option.some.injEq, Prod.mk.injEq] at h
          rw [← h.1]; simp
        | true =>
          simp only at h
          cases hw : at? cart_points_ (start_index + j) with
          | none => rw [hw] at h; simp at h
          | some wp =>
            rw [hw] at h
            simp only at h
            cases hc : R.getClosestJointPose wp pose with
            | none =>
              rw [hc] at h
              simp only [Option.some.injEq, Prod.mk.injEq] at h
              rw [← h.1]; simp
            | some aprox =>
              rw [hc] at h
              exact ih _ _ _ _ _ _ h
    · simp only [hcond, if_false] at h
      simp at h

theorem lastEntry_mem (a : SolutionEntry) (tail : SolutionArray) :
    lastEntry a tail ∈ a :: tail := by
  induction tail generalizing a with
  | nil => simp [lastEntry]
  | cons b rest ih =>
    simp only [lastEntry]
    exact List.mem_cons_of_mem _ (ih b)

theorem lastEntry_getLast? (a : SolutionEntry) (tail : SolutionArray) :
    (a :: tail).getLast? = some (lastEntry a tail) := by
  induction tail generalizing a with
  | nil => simp [lastEntry]
  | cons b rest ih =>
    simp only [lastEntry]
    rw [List.getLast?_cons_cons]
    exact ih b

theorem lastEntry_ge (a : SolutionEntry) (tail : SolutionArray)
    (hsorted : (a :: tail).Pairwise (fun x y => x.1 < y.1)) : a.1 ≤ (lastEntry a tail).1 := by
  rcases List.mem_cons.1 (lastEntry_mem a tail) with h | h
  · rw [h]
  · exact le_of_lt ((List.pairwise_cons.1 hsorted).1 _ h)

theorem interpolatePairs_keys (R : RobotModel) (cart_points_ : List TrajectoryPt) :
    ∀ (tail : SolutionArray) (a : SolutionEntry) (k : Int) (rough : List ℚ) (jm jm' : JointMap),
      interpolatePairs R cart_points_ k (a :: tail) rough jm
        = some (InterpolationResult.SUCCESS, jm') →
      (a :: tail).Pairwise (fun x y => x.1 < y.1) →
      (∀ e ∈ a :: tail, at? cart_points_ e.1 = some e.2.1) →
      ∀ x, jm'.contains x = true ↔
        (jm.contains x = true
          ∨ (tail ≠ [] ∧ ∃ q wp, a.1 ≤ q ∧ q ≤ (lastEntry a tail).1
              ∧ at? cart_points_ q = some wp ∧ wp.id = x)) := by
  intro tail
  induction tail with
  | nil =>
    intro a k rough jm jm' h _ _ x
    simp only [interpolatePairs, Option.some.injEq, Prod.mk.injEq, true_and] at h
    rw [← h]
    simp
  | cons b rest ih =>
    intro a k rough jm jm' h hsorted href x
    have hab : a.1 < b.1 := (List.pairwise_cons.1 hsorted).1 b (List.mem_cons_self _ _)
    have hsorted' : (b :: rest).Pairwise (fun x y => x.1 < y.1) :=
      (List.pairwise_cons.1 hsorted).2
    have href' : ∀ e ∈ b :: rest, at? cart_points_ e.1 = some e.2.1 :=
      fun e he => href e (List.mem_cons_of_mem _ he)
    have hra := href a (List.mem_cons_self _ _)
    have hrb := href b (List.mem_cons_of_mem _ (List.mem_cons_self _ _))
    have hba := at?_bounds _ _ _ hra
    have hbb := at?_bounds _ _ _ hrb
    have hbl : b.1 ≤ (lastEntry b rest).1 := lastEntry_ge b rest hsorted'
    simp only [interpolatePairs] at h
    split at h
    · simp at h
    · next r rough2 map2 hseg =>
      simp only [Option.some.injEq, Prod.mk.injEq] at h
      obtain ⟨hr, _⟩ := h
      subst hr
      exact absurd rfl (interpolateSegment_not_success R cart_points_ _ _ _ _ _ _ _ _ _ _ _ _ hseg)
    · next rough2 map2 hseg =>
      have hkeys := interpolateSegment_keys R cart_points_ k a.1 (b.1 - a.1) _ _ _ _ _ _ _ _
        hseg (by omega) (by omega) (by omega) x
      have hrec := ih b (k + 1) rough2 (map2.insert b.2.1.id a.2.2) jm' h hsorted' href' x
      rw [hrec, JointMap.contains_insert, hkeys, JointMap.contains_insert]
      simp only [lastEntry]
      constructor
      · rintro ((((h1 | h1) | ⟨q, wq, hq1, hq2, hq3, hq4⟩) | h1) | ⟨_, q, wq, hq1, hq2, hq3, hq4⟩)
        · exact Or.inl h1
        · exact Or.inr ⟨by simp, a.1, a.2.1, le_refl _, by omega, hra, h1.symm⟩
        · refine Or.inr ⟨by simp, a.1 + q, wq, by omega, by omega, hq3, hq4⟩
        · exact Or.inr ⟨by simp, b.1, b.2.1, by omega, hbl, hrb, h1.symm⟩
        · exact Or.inr ⟨by simp, q, wq, by omega, hq2, hq3, hq4⟩
      · rintro (h1 | ⟨_, q, wq, hq1, hq2, hq3, hq4⟩)
        · exact Or.inl (Or.inl (Or.inl (Or.inl h1)))
        · by_cases hqa : q = a.1
          · subst hqa
            rw [hra] at hq3
            cases Option.some.inj hq3
            exact Or.inl (Or.inl (Or.inl (Or.inr hq4.symm)))
          · by_cases hqb : q < b.1
            · refine Or.inl (Or.inl (Or.inr ⟨q - a.1, wq, by omega, by omega, ?_, hq4⟩))
              rw [show a.1 + (q - a.1) = q by omega]; exact hq3
            · by_cases hqe : q = b.1
              · subst hqe
                rw [hrb] at hq3
                cases Option.some.inj hq3
                exact Or.inl (Or.inr hq4.symm)
              · have hrest : rest ≠ [] := by
                  intro hnil
                  subst hnil
                  simp only [lastEntry] at hq2
                  omega
                exact Or.inr ⟨hrest, q, wq, by omega, hq2, hq3, hq4⟩

/-! ## Sparse solution table rebuild (C1) -/

/-- C1 (the code departs from the claim): with the solver returning the joint points
`jA, jB` and the ordering walk returning the waypoints `c0, c2`, the rebuilt table
pairs both joint points with `c0` at dense index `0`, although `c2` lies at dense
index `2`; and the rebuild still succeeds when `c2` is absent from the dense
trajectory. -/
theorem C1_rebuild_pairs_every_joint_point_with_first_waypoint :
    getOrderedSparseCartesianArray Example.chainMap = some [Example.c0, Example.c2]
    ∧ getDensePointIndex [Example.c0, Example.c1, Example.c2] Example.c2.id = 2
    ∧ getSparseSolutionArray [Example.c0, Example.c1, Example.c2]
        (some [Example.jA, Example.jB]) Example.chainMap []
        = some (true, [(0, Example.c0, Example.jA), (0, Example.c0, Example.jB)])
    ∧ getDensePointIndex [Example.c0] Example.c2.id = INVALID_INDEX
    ∧ getSparseSolutionArray [Example.c0] (some [Example.jA, Example.jB]) Example.chainMap []
        = some (true, [(0, Example.c0, Example.jA), (0, Example.c0, Example.jB)]) := by
  decide

/-! ## Joint pose map (C2) -/

/-- C2 (the code departs from the claim): for the two-entry table `(0, c0, jA)`,
`(1, c1, jB)` and any robot model, validation returns `SUCCESS`, and the joint point
then stored for `c1` is `jA`, the joint point of the previous entry, not `jB`. -/
theorem C2_end_point_recorded_with_start_joint_point (R : RobotModel) :
    interpolateSparseTrajectory R [Example.c0, Example.c1]
        [(0, Example.c0, Example.jA), (1, Example.c1, Example.jB)]
      = some (InterpolationResult.SUCCESS, [(1, Example.jA), (2, Example.jA)])
    ∧ getSolutionJointPoint [(1, Example.jA), (2, Example.jA)] Example.c1.id = some Example.jA
    ∧ Example.jA ≠ Example.jB := by
  refine ⟨rfl, by decide, by decide⟩

/-! ## Result of `plan` (C3) -/

/-- C3 (the code departs from the claim): `plan` never returns `false`; with a graph
whose solver finds no path the loop ends with `succeeded == false` after the failed
table rebuild, yet `plan` and `setTrajectoryPoints` return `true`. -/
theorem C3_plan_returns_true_after_failed_rebuild :
    (∀ (G : Type) (R : RobotModel) (P : PlanningGraph G) (s : SparsePlanner G),
        (plan R P s).map (fun r => r.1) ≠ some false)
    ∧ (planLoop Example.acceptAll Example.noPath MAX_REPLANNING_ATTEMPTS Example.fresh).map
        (fun r => r.1) = some false
    ∧ (plan Example.acceptAll Example.noPath Example.fresh).map (fun r => r.1) = some true
    ∧ (setTrajectoryPoints 4 Example.acceptAll Example.noPath Example.fresh
        [Example.c0, Example.c1, Example.c2]).map (fun r => r.1) = some true := by
  refine ⟨?_, by decide, by decide, by decide!⟩
  intro G R P s
  unfold plan
  cases planLoop R P MAX_REPLANNING_ATTEMPTS s <;> simp

/-! ## Validator scan (C4) -/

/-- C4 (as stated it fails): for the table `(0, c0, jLong)`, `(2, c2, jA)` over
`c0, c1, c2`, strictly increasing with valid positions, and a robot model that accepts
every pose, no in-between position is rejected, yet the validator does not return
`SUCCESS`: interpolating for position `1` reads the second coordinate of the
one-coordinate end pose, so the run has no defined result. -/
theorem C4_counterexample_mismatched_pose_lengths :
    Example.mixedTable.Pairwise (fun a b => a.1 < b.1)
    ∧ (∀ e ∈ Example.mixedTable,
        0 ≤ e.1 ∧ e.1 < ([Example.c0, Example.c1, Example.c2] : List TrajectoryPt).length)
    ∧ (¬ ∃ k p, Rejected Example.acceptAll [Example.c0, Example.c1, Example.c2]
          Example.mixedTable k p)
    ∧ interpolateSparseTrajectory Example.acceptAll [Example.c0, Example.c1, Example.c2]
        Example.mixedTable = none := by
  refine ⟨by decide, by decide, ?_, by decide!⟩
  rintro ⟨k, p, wp, pose, _, h⟩
  simp [Example.acceptAll] at h

/-- C4 (amended): for a table strictly increasing in dense position, with all positions
valid dense indices and all nominal joint poses of the same length, the validator
returns a defined result; it is `REPLAN k p` exactly when `p` is the lowest rejected
in-between position (between entries `k - 1` and `k`); then `1 ≤ k < |table|`, `p`
lies strictly between the positions of entries `k - 1` and `k`, and every lower
in-between position was accepted; and it is `SUCCESS` when no position is rejected. -/
theorem C4_validator_reports_lowest_rejected_position (R : RobotModel)
    (cart_points_ : List TrajectoryPt) (table : SolutionArray)
    (hsorted : table.Pairwise (fun a b => a.1 < b.1))
    (hvalid : ∀ e ∈ table, 0 ≤ e.1 ∧ e.1 < cart_points_.length)
    (hdim : ∀ a ∈ table, ∀ b ∈ table, (nominalPose R a).length = (nominalPose R b).length) :
    ∃ res jm, interpolateSparseTrajectory R cart_points_ table = some (res, jm)
      ∧ (∀ k p, res = InterpolationResult.REPLAN k p ↔
            (Rejected R cart_points_ table k p
              ∧ ∀ k' p', Rejected R cart_points_ table k' p' → p ≤ p'))
      ∧ (∀ k p, res = InterpolationResult.REPLAN k p →
            1 ≤ k ∧ k < table.length ∧ InBetween table k p
            ∧ ∀ k' p', InBetween table k' p' → p' < p → Accepted R cart_points_ table k' p')
      ∧ ((¬ ∃ k p, Rejected R cart_points_ table k p) → res = InterpolationResult.SUCCESS) := by
  obtain ⟨res, jm, hrun, hres⟩ :=
    interpolatePairs_scan R cart_points_ table hsorted hvalid hdim table 0 [] [] rfl
      (by
        intro k' p' hrej
        obtain ⟨wp, pose, ⟨a, b, ha, _⟩, _⟩ := hrej
        have := (at?_bounds table (k' - 1) a ha).1
        simp only [Nat.cast_zero]
        omega)
  have hrun' : interpolateSparseTrajectory R cart_points_ table = some (res, jm) := by
    unfold interpolateSparseTrajectory
    simpa using hrun
  have hiff : ∀ k p, res = InterpolationResult.REPLAN k p ↔
      (Rejected R cart_points_ table k p
        ∧ ∀ k' p', Rejected R cart_points_ table k' p' → p ≤ p') := by
    intro k p
    rcases hres with ⟨hs, hno⟩ | ⟨k0, p0, hr, hrej, hmin⟩
    · constructor
      · intro h; rw [hs] at h; exact absurd h (by simp)
      · rintro ⟨h, _⟩; exact absurd h (hno k p)
    · constructor
      · intro h
        rw [hr] at h
        cases h
        exact ⟨hrej, hmin⟩
      · rintro ⟨h, hmin'⟩
        have hp : p = p0 := le_antisymm (hmin' k0 p0 hrej) (hmin k p h)
        subst hp
        have hk : k = k0 := rejected_index_unique R cart_points_ table hsorted k k0 p h hrej
        rw [hr, hk]
  refine ⟨res, jm, hrun', hiff, ?_, ?_⟩
  · intro k p h
    obtain ⟨hrej, hmin⟩ := (hiff k p).1 h
    obtain ⟨wp, pose, ⟨a, b, ha, hb, h1, h2, h3, h4⟩, h5⟩ := hrej
    have hka := (at?_bounds table (k - 1) a ha).1
    have hkb := (at?_bounds table k b hb).2.1
    refine ⟨by omega, hkb, ⟨a, b, ha, hb, h1, h2⟩, ?_⟩
    intro k' p' hin hlt
    obtain ⟨a', b', ha', hb', h1', h2'⟩ := hin
    have hva := hvalid a' (at?_mem _ _ _ ha')
    have hvb := hvalid b' (at?_mem _ _ _ hb')
    obtain ⟨wp', hwp'⟩ := at?_some_of_range cart_points_ p' (by omega) (by omega)
    obtain ⟨pose', hpose'⟩ := interpolateLoop_total
      (((p' - a'.1 : Int) : ℚ) / ((b'.1 - a'.1 : Int) : ℚ)) (nominalPose R a') (nominalPose R b')
      (le_of_eq (hdim a' (at?_mem _ _ _ ha') b' (at?_mem _ _ _ hb')))
    have hcand : Candidate R cart_points_ table k' p' wp' pose' :=
      ⟨a', b', ha', hb', h1', h2', hwp', hpose'⟩
    cases hcl : R.getClosestJointPose wp' pose' with
    | none =>
      have := hmin k' p' ⟨wp', pose', hcand, hcl⟩
      omega
    | some v => exact ⟨wp', pose', hcand, by simp [hcl]⟩
  · intro hno
    rcases hres with ⟨hs, _⟩ | ⟨k0, p0, _, hrej, _⟩
    · exact hs
    · exact absurd ⟨k0, p0, hrej⟩ hno

/-- C4 (amended) at a concrete input: table `(0, c0, jA)`, `(2, c2, jB)` over
`c0, c1, c2`, where `c1` rejects every pose. -/
theorem C4_validator_witness :
    Example.evenTable.Pairwise (fun a b => a.1 < b.1)
    ∧ (∀ e ∈ Example.evenTable,
        0 ≤ e.1 ∧ e.1 < ([Example.c0, Example.c1, Example.c2] : List TrajectoryPt).length)
    ∧ (∀ a ∈ Example.evenTable, ∀ b ∈ Example.evenTable,
        (nominalPose Example.rejectSecond a).length = (nominalPose Example.rejectSecond b).length)
    ∧ ∃ res jm, interpolateSparseTrajectory Example.rejectSecond
          [Example.c0, Example.c1, Example.c2] Example.evenTable = some (res, jm)
        ∧ ∀ k p, res = InterpolationResult.REPLAN k p ↔
            (Rejected Example.rejectSecond [Example.c0, Example.c1, Example.c2]
                Example.evenTable k p
              ∧ ∀ k' p', Rejected Example.rejectSecond [Example.c0, Example.c1, Example.c2]
                  Example.evenTable k' p' → p ≤ p') :=
  ⟨by decide, by decide, by decide,
    (C4_validator_reports_lowest_rejected_position Example.rejectSecond
      [Example.c0, Example.c1, Example.c2] Example.evenTable (by decide) (by decide)
      (by decide)).imp fun _ h => h.imp fun _ h' => ⟨h'.1, h'.2.1⟩⟩

/-! ## Interpolation precondition (C5) -/

/-- C5 (the code departs from the claim): `interpolateJointPose` returns `true` for
equal lengths with `t = 2`, and for different lengths with `t = 1/2`; it returns
`false` only when both conditions are violated together. -/
theorem C5_interpolateJointPose_accepts_single_violation :
    interpolateJointPose [0] [0] 2 [] = some (true, [0])
    ∧ interpolateJointPose [0] [0, 0] (1 / 2) [] = some (true, [0])
    ∧ interpolateJointPose [0] [0, 0] 2 [] = some (false, []) := by
  refine ⟨?_, ?_, ?_⟩ <;> norm_num [interpolateJointPose, interpolateLoop]

/-! ## Sampler (C6, C7, C8) -/

/-- C6: for a dense trajectory with pairwise distinct identifiers and an integer
sampling parameter `0 < k < n`, `sampleTrajectory`, started with an empty output and
given enough fuel, returns exactly the waypoints at the indices `sampledIndices n s`
with `s = n / k` (the multiples of `s` below `n`, then `n - 1` if it is not one of
them); these indices contain `0` and `n - 1`, are strictly increasing and below `n`;
for `n = 10`, `k = 3` they are `0, 3, 6, 9` and the output is `p0, p3, p6, p9`. -/
theorem C6_sampleTrajectory_takes_stride_multiples_and_last (dense : List TrajectoryPt) (k : ℕ)
    (hids : (dense.map (fun p => p.id)).Nodup) (hk : 0 < k) (hkn : k < dense.length)
    (fuel : ℕ) (hfuel : dense.length < fuel) :
    (∃ out, sampleTrajectory fuel (k : ℚ) dense [] = some out
      ∧ out.map some
          = (sampledIndices dense.length (dense.length / k)).map (fun i => dense[i]?))
    ∧ 0 ∈ sampledIndices dense.length (dense.length / k)
    ∧ dense.length - 1 ∈ sampledIndices dense.length (dense.length / k)
    ∧ (sampledIndices dense.length (dense.length / k)).Pairwise (· < ·)
    ∧ (∀ i ∈ sampledIndices dense.length (dense.length / k), i < dense.length)
    ∧ sampledIndices 10 (10 / 3) = [0, 3, 6, 9]
    ∧ sampleTrajectory 11 ((3 : ℕ) : ℚ) Example.tenPoints []
        = some [⟨1, 0⟩, ⟨4, 0⟩, ⟨7, 0⟩, ⟨10, 0⟩] := by
  have hfacts := sampledIndices_facts dense.length (dense.length / k) (by omega)
  exact ⟨sampleTrajectory_indices dense k hids hk hkn fuel hfuel, hfacts.1, hfacts.2.1,
    hfacts.2.2.1, hfacts.2.2.2, by decide, by decide!⟩

/-- C6 at a concrete input: five waypoints, `k = 2`, fuel `6`. -/
theorem C6_sampleTrajectory_witness :
    (Example.fivePoints.map (fun p => p.id)).Nodup ∧ 0 < 2 ∧ 2 < Example.fivePoints.length
    ∧ Example.fivePoints.length < 6
    ∧ ∃ out, sampleTrajectory 6 ((2 : ℕ) : ℚ) Example.fivePoints [] = some out
        ∧ out.map some
            = (sampledIndices Example.fivePoints.length (Example.fivePoints.length / 2)).map
                (fun i => Example.fivePoints[i]?) :=
  ⟨by decide, by decide, by decide, by decide,
    (C6_sampleTrajectory_takes_stride_multiples_and_last Example.fivePoints 2 (by decide)
      (by decide) (by decide) 6 (by decide)).1⟩

/-- C7 (as stated it fails): for five waypoints and `k = 3` (so `0 < k < n`) the
sampler returns all five waypoints, more than `k + 1 = 4`. -/
theorem C7_counterexample_five_points_k3 :
    0 < 3 ∧ 3 < Example.fivePoints.length
    ∧ sampleTrajectory 6 ((3 : ℕ) : ℚ) Example.fivePoints [] = some Example.fivePoints
    ∧ ¬ (Example.fivePoints.length ≤ 3 + 1) := by
  decide!

/-- C7 (amended): for a dense trajectory of length `n` and an integer sampling
parameter `0 < k < n`, the output of `sampleTrajectory` has length at most `2 * k`; it
has length at most `k + 1` when `n % k ≤ 1`, and, for pairwise distinct identifiers,
only then. -/
theorem C7_sample_length_bounds (dense : List TrajectoryPt) (k : ℕ)
    (hk : 0 < k) (hkn : k < dense.length) (fuel : ℕ) (hfuel : dense.length < fuel) :
    ∃ out, sampleTrajectory fuel (k : ℚ) dense [] = some out
      ∧ out.length ≤ 2 * k
      ∧ (dense.length % k ≤ 1 → out.length ≤ k + 1)
      ∧ ((dense.map (fun p => p.id)).Nodup → out.length ≤ k + 1 → dense.length % k ≤ 1) := by
  obtain ⟨out0, l, x, y, hmap, hl, hiff, hx, hy, hrun⟩ :=
    sampleTrajectory_run dense k hk hkn fuel hfuel
  have hs : 1 ≤ dense.length / k := (Nat.one_le_div_iff hk).2 (le_of_lt hkn)
  have harith := sample_length_arith dense.length k hk hkn
  have hlen0 : out0.length = (dense.length - 1) / (dense.length / k) + 1 := by
    have := congrArg List.length hmap
    rw [multiples_eq_map dense.length (dense.length / k) hs (by omega)] at this
    simpa using this
  have hn1 : dense.length - 1 < dense.length := by omega
  rw [List.getElem?_eq_getElem hl] at hx
  rw [List.getElem?_eq_getElem hn1] at hy
  have hx' : x = dense[l] := (Option.some.inj hx).symm
  have hy' : y = dense[dense.length - 1] := (Option.some.inj hy).symm
  refine ⟨_, hrun, ?_, ?_, ?_⟩
  · by_cases hxy : x.id = y.id
    · simp only [hxy, ne_eq, not_true_eq_false, if_false, hlen0]; omega
    · simp only [hxy, ne_eq, not_false_eq_true, if_true, List.length_append, hlen0,
        List.length_singleton]
      exact harith.1
  · intro hmod
    have hbound := harith.2.2 hmod
    by_cases hxy : x.id = y.id
    · simp only [hxy, ne_eq, not_true_eq_false, if_false, hlen0]
      split_ifs at hbound <;> omega
    · have hcase : ¬ (dense.length - 1) % (dense.length / k) = 0 := by
        intro h0
        have hln := hiff.2 h0
        apply hxy
        rw [hx', hy']; simp [hln]
      simp only [hxy, ne_eq, not_false_eq_true, if_true, List.length_append, hlen0,
        List.length_singleton]
      simpa [hcase] using hbound
  · intro hids hle
    apply harith.2.1
    by_cases hcase : (dense.length - 1) % (dense.length / k) = 0
    · simp only [hcase, if_true]
      have hln := hiff.2 hcase
      have hxy : x.id = y.id := by rw [hx', hy']; simp [hln]
      simp only [hxy, ne_eq, not_true_eq_false, if_false, hlen0] at hle
      omega
    · simp only [hcase, if_false]
      have hxy : x.id ≠ y.id := by
        rw [hx', hy']
        intro h
        exact hcase (hiff.1 (getElem_id_inj dense hids l _ hl hn1 h))
      simpa [hxy, hlen0] using hle

/-- C7 (amended) at a concrete input: five waypoints, `k = 3`, fuel `6`. -/
theorem C7_sample_length_witness :
    0 < 3 ∧ 3 < Example.fivePoints.length ∧ Example.fivePoints.length < 6
    ∧ ∃ out, sampleTrajectory 6 ((3 : ℕ) : ℚ) Example.fivePoints [] = some out
        ∧ out.length ≤ 2 * 3 :=
  ⟨by decide, by decide, by decide,
    (C7_sample_length_bounds Example.fivePoints 3 (by decide) (by decide) 6 (by decide)).imp
      fun _ h => ⟨h.1, h.2.1⟩⟩

/-- C8 (the code departs from the claim): for a non-empty dense trajectory and an
integer sampling parameter `k` larger than its length, the stride is `0` and the
sampling loop never ends: whatever the fuel, `sampleTrajectory` does not return. -/
theorem C8_zero_stride_never_returns (dense : List TrajectoryPt) (k : ℕ)
    (hne : dense ≠ []) (hk : dense.length < k) (fuel : ℕ) (sparse : List TrajectoryPt) :
    toInt ((dense.length : ℚ) / (k : ℚ)) = 0
    ∧ sampleTrajectory fuel (k : ℚ) dense sparse = none := by
  have hskip : toInt ((dense.length : ℚ) / (k : ℚ)) = 0 := by
    rw [toInt_natCast_div, Nat.div_eq_of_lt hk]; rfl
  refine ⟨hskip, ?_⟩
  obtain ⟨x, xs, hx⟩ := List.exists_cons_of_ne_nil hne
  have hk0 : ((k : ℚ) = 0) = False := by
    simp only [eq_iff_iff, iff_false]; exact_mod_cast (by omega : k ≠ 0)
  unfold sampleTrajectory
  simp only [hk0, if_false, hskip, sampleLoop_zero_skip dense x xs hx fuel sparse]

/-- C8 at a concrete input: two waypoints, `k = 3`, fuel `1000`. -/
theorem C8_zero_stride_witness :
    ([Example.c0, Example.c1] : List TrajectoryPt) ≠ []
    ∧ ([Example.c0, Example.c1] : List TrajectoryPt).length < 3
    ∧ sampleTrajectory 1000 ((3 : ℕ) : ℚ) [Example.c0, Example.c1] [] = none :=
  ⟨by decide, by decide,
    (C8_zero_stride_never_returns [Example.c0, Example.c1] 3 (by decide) (by decide) 1000 []).2⟩

/-! ## Ordering walk (C9) -/

/-- C9 (as stated it fails): in `loopMap` two nodes have a nil previous link and the
next-link chain `1 → 2 → 1` revisits node `1`, yet the walk succeeds; its output has the
source of node `1` twice and lacks the source of node `3`. -/
theorem C9_counterexample_two_starts_and_revisit :
    getOrderedSparseCartesianArray Example.loopMap
      = some [Example.c0, Example.c1, Example.c0]
    ∧ (Example.loopMap.filter (fun p => p.2.links_.id_previous == nil_uuid)).length = 2
    ∧ Example.c2 ∉ [Example.c0, Example.c1, Example.c0] := by
  decide

/-- C9 (amended): `getOrderedSparseCartesianArray` fails when no node has a nil previous
link, and when the next-link chain from the first nil-previous node leaves the map
before `|node set|` nodes are visited; whenever it succeeds, its output has length
`|node set|` and lists, in next-link order from the first nil-previous node, the
source waypoints of the chain, and if that chain revisits no node it visits every
node of the map exactly once. -/
theorem C9_walk_follows_links (cart_map : CartesianMap) :
    ((∀ p ∈ cart_map, p.2.links_.id_previous ≠ nil_uuid) →
        getOrderedSparseCartesianArray cart_map = none)
    ∧ (∀ p, cart_map.find? (fun p => p.2.links_.id_previous == nil_uuid) = some p →
        (linkChain cart_map cart_map.length p.1).length < cart_map.length →
        getOrderedSparseCartesianArray cart_map = none)
    ∧ (∀ out, getOrderedSparseCartesianArray cart_map = some out →
        out.length = cart_map.length
        ∧ ∃ p, cart_map.find? (fun p => p.2.links_.id_previous == nil_uuid) = some p
          ∧ out.map some = (linkChain cart_map cart_map.length p.1).map (sourceOf cart_map)
          ∧ ((linkChain cart_map cart_map.length p.1).Nodup →
              (linkChain cart_map cart_map.length p.1).Perm (cart_map.map Prod.fst))) := by
  refine ⟨?_, ?_, ?_⟩
  · intro h
    have hnone : cart_map.find? (fun p => p.2.links_.id_previous == nil_uuid) = none := by
      rw [List.find?_eq_none]
      intro p hp
      simpa using h p hp
    simp [getOrderedSparseCartesianArray, hnone]
  · intro p hp hlen
    unfold getOrderedSparseCartesianArray
    rw [hp]
    by_cases hnil : p.1 = nil_uuid
    · simp [hnil]
    · simp only [hnil, if_false]
      exact orderedWalk_none cart_map _ _ _ hlen
  · intro out hout
    unfold getOrderedSparseCartesianArray at hout
    cases hp : cart_map.find? (fun p => p.2.links_.id_previous == nil_uuid) with
    | none => rw [hp] at hout; exact absurd hout (by simp)
    | some p =>
      rw [hp] at hout
      by_cases hnil : p.1 = nil_uuid
      · simp [hnil] at hout
      · simp only [hnil, if_false] at hout
        obtain ⟨hlen, rest, hrest, hmap⟩ := orderedWalk_some cart_map _ _ _ _ hout
        simp only [List.nil_append] at hrest
        subst hrest
        have hl : out.length = cart_map.length := by
          have := congrArg List.length hmap
          simpa [hlen] using this
        refine ⟨hl, p, rfl, hmap, ?_⟩
        intro hnd
        apply List.Subperm.perm_of_length_le
        · exact List.subperm_of_subset hnd (linkChain_subset_keys cart_map _ _)
        · simp [hlen]

/-- C9 (amended) at a concrete input: the two-node map `c0 → c2`. -/
theorem C9_walk_witness :
    getOrderedSparseCartesianArray Example.chainMap = some [Example.c0, Example.c2]
    ∧ ([Example.c0, Example.c2] : List TrajectoryPt).length = Example.chainMap.length :=
  ⟨by decide,
    ((C9_walk_follows_links Example.chainMap).2.2 [Example.c0, Example.c2] (by decide)).1⟩

/-! ## Edit API: unknown reference (C10) -/

/-- C10: when no waypoint of the dense trajectory has identifier `ref_id`,
`addTrajectoryPointAfter`, `addTrajectoryPointBefore` and `removeTrajectoryPoint`
return `false` and hand back the planner state they were given: same dense
trajectory, sparse table, joint-pose map, graph and call log. -/
theorem C10_unknown_reference_is_rejected_without_mutation {G : Type} (R : RobotModel)
    (P : PlanningGraph G) (s : SparsePlanner G) (ref_id : ID) (cp : TrajectoryPt)
    (habsent : ∀ q ∈ s.cart_points_, q.id ≠ ref_id) :
    addTrajectoryPointAfter R P s ref_id cp = some (false, s)
    ∧ addTrajectoryPointBefore R P s ref_id cp = some (false, s)
    ∧ removeTrajectoryPoint R P s ref_id = some (false, s) := by
  have h := getDensePointIndex_absent s.cart_points_ ref_id habsent
  refine ⟨?_, ?_, ?_⟩
  · simp [addTrajectoryPointAfter, findNearestSparsePointIndex, h]
  · simp [addTrajectoryPointBefore, findNearestSparsePointIndex, h]
  · simp [removeTrajectoryPoint, h]

/-- C10 at a concrete planner: identifier `9` is not in the dense trajectory
`c0, c1, c2`. -/
theorem C10_unknown_reference_witness :
    addTrajectoryPointAfter Example.acceptAll Example.noPath Example.loaded 9 Example.c3
        = some (false, Example.loaded)
    ∧ addTrajectoryPointBefore Example.acceptAll Example.noPath Example.loaded 9 Example.c3
        = some (false, Example.loaded)
    ∧ removeTrajectoryPoint Example.acceptAll Example.noPath Example.loaded 9
        = some (false, Example.loaded) :=
  C10_unknown_reference_is_rejected_without_mutation Example.acceptAll Example.noPath
    Example.loaded 9 Example.c3 (by decide)

/-! ## Edit API: modify with an unknown reference (C11) -/

/-- C11 (the code departs from the claim): when `ref_id` is the identifier of no table
entry and of no dense waypoint, `modifyTrajectoryPoint` gets `INVALID_INDEX` from both
searches and, without testing it, reads `sparse_solution_array_[INVALID_INDEX - 1]`,
an out-of-range access: the call has no defined result instead of returning `false`. -/
theorem C11_modify_unknown_reference_reads_out_of_range {G : Type} (R : RobotModel)
    (P : PlanningGraph G) (s : SparsePlanner G) (ref_id : ID) (cp : TrajectoryPt)
    (hsparse : ∀ e ∈ s.sparse_solution_array_, e.2.1.id ≠ ref_id)
    (hdense : ∀ q ∈ s.cart_points_, q.id ≠ ref_id) :
    getSparsePointIndex s.sparse_solution_array_ ref_id = INVALID_INDEX
    ∧ findNearestSparsePointIndex s.cart_points_ s.sparse_solution_array_ ref_id true
        = INVALID_INDEX
    ∧ at? s.sparse_solution_array_ (INVALID_INDEX - 1) = none
    ∧ modifyTrajectoryPoint R P s ref_id cp = none := by
  have h1 : getSparsePointIndex s.sparse_solution_array_ ref_id = INVALID_INDEX := by
    have hnone : findIf (fun t : SolutionEntry => ref_id == t.2.1.id)
        s.sparse_solution_array_ = none := by
      apply findIf_eq_none
      intro x hx
      have hne := hsparse x hx
      simp only [beq_eq_false_iff_ne, ne_eq]
      exact fun e => hne e.symm
    simp [getSparsePointIndex, hnone]
  have h2 : findNearestSparsePointIndex s.cart_points_ s.sparse_solution_array_ ref_id true
      = INVALID_INDEX := by
    simp [findNearestSparsePointIndex, getDensePointIndex_absent s.cart_points_ ref_id hdense]
  have h3 : at? s.sparse_solution_array_ (INVALID_INDEX - 1) = none := by
    simp [at?, INVALID_INDEX]
  refine ⟨h1, h2, h3, ?_⟩
  unfold modifyTrajectoryPoint
  simp only [h1, h2, h3, if_true]

/-- C11 at a concrete planner: identifier `9` is in neither store. -/
theorem C11_modify_unknown_reference_witness :
    (∀ e ∈ Example.loaded.sparse_solution_array_, e.2.1.id ≠ 9)
    ∧ (∀ q ∈ Example.loaded.cart_points_, q.id ≠ 9)
    ∧ modifyTrajectoryPoint Example.acceptAll Example.noPath Example.loaded 9 Example.c3 = none :=
  ⟨by decide, by decide,
    (C11_modify_unknown_reference_reads_out_of_range Example.acceptAll Example.noPath
      Example.loaded 9 Example.c3 (by decide) (by decide)).2.2.2⟩

/-! ## Edit API: rejected add (C12) -/

/-- C12 (the code departs from the claim): on the planner over `c0, c1, c2` with a graph
that rejects every add, `addTrajectoryPointAfter(1, c3)` and
`addTrajectoryPointBefore(2, c3)` return `false` after issuing the add, and the dense
trajectory they leave is `c0, c3, c1, c2`: the new waypoint was spliced in before the
graph was asked. -/
theorem C12_rejected_add_leaves_new_waypoint_in_dense_trajectory :
    Example.loaded.cart_points_ = [Example.c0, Example.c1, Example.c2]
    ∧ (addTrajectoryPointAfter Example.acceptAll Example.rejecting Example.loaded 1
          Example.c3).map (fun r => (r.1, r.2.cart_points_, r.2.calls))
        = some (false, [Example.c0, Example.c3, Example.c1, Example.c2],
            [GraphCall.addTrajectory Example.c3 1 3])
    ∧ (addTrajectoryPointBefore Example.acceptAll Example.rejecting Example.loaded 2
          Example.c3).map (fun r => (r.1, r.2.cart_points_, r.2.calls))
        = some (false, [Example.c0, Example.c3, Example.c1, Example.c2],
            [GraphCall.addTrajectory Example.c3 1 3]) := by
  decide

/-! ## Edit API: rejected removal (C13) -/

/-- C13: when `ref_id` is the identifier of a dense waypoint and of a table entry and
the graph rejects the removal of that waypoint, `removeTrajectoryPoint` returns `false`;
the dense trajectory, the table and the joint-pose map are as before, and the only
graph call made is that `removeTrajectory` (no `getShortestPath`, so `plan` did not
run). -/
theorem C13_rejected_removal_aborts_before_erasing {G : Type} (R : RobotModel)
    (P : PlanningGraph G) (s : SparsePlanner G) (ref_id : ID)
    (hdense : ∃ q ∈ s.cart_points_, q.id = ref_id)
    (hsparse : ∃ e ∈ s.sparse_solution_array_, e.2.1.id = ref_id)
    (hreject : ∀ q ∈ s.cart_points_, q.id = ref_id → (P.removeTrajectory s.graph q).1 = false) :
    ∃ cp s', removeTrajectoryPoint R P s ref_id = some (false, s')
      ∧ at? s.cart_points_ (getDensePointIndex s.cart_points_ ref_id) = some cp
      ∧ s'.cart_points_ = s.cart_points_
      ∧ s'.sparse_solution_array_ = s.sparse_solution_array_
      ∧ s'.joint_points_map_ = s.joint_points_map_
      ∧ s'.calls = s.calls ++ [GraphCall.removeTrajectory cp] := by
  obtain ⟨i, wp, hidx, hwp, hid⟩ := getDensePointIndex_found s.cart_points_ ref_id hdense
  have hin : isInSparseTrajectory s.sparse_solution_array_ ref_id = true := by
    obtain ⟨e, he, heid⟩ := hsparse
    obtain ⟨j, hj⟩ := findIf_of_mem (fun t : SolutionEntry => ref_id == t.2.1.id)
      s.sparse_solution_array_ ⟨e, he, by simp [heid]⟩
    simp [isInSparseTrajectory, hj]
  have hat : at? s.cart_points_ (getDensePointIndex s.cart_points_ ref_id) = some wp := by
    rw [hidx, at?_natCast]; exact hwp
  have hrej := hreject wp (List.getElem?_mem hwp) hid
  refine ⟨wp, (callRemoveTrajectory P s wp).2, ?_, hat, rfl, rfl, rfl, rfl⟩
  unfold removeTrajectoryPoint
  have hne : (getDensePointIndex s.cart_points_ ref_id = INVALID_INDEX) = False := by
    rw [hidx]; exact natCast_ne_invalid i
  have hrej' : (callRemoveTrajectory P s wp).1 = false := hrej
  simp only [hne, if_false, hin, if_true, hat, hrej', Bool.false_eq_true]

/-- C13 at a concrete planner: `c0` (identifier `1`) is a dense waypoint and a table
entry, and the graph rejects every removal. -/
theorem C13_rejected_removal_witness :
    (∃ q ∈ Example.loaded.cart_points_, q.id = 1)
    ∧ (∃ e ∈ Example.loaded.sparse_solution_array_, e.2.1.id = 1)
    ∧ ∃ cp s', removeTrajectoryPoint Example.acceptAll Example.rejecting Example.loaded 1
          = some (false, s')
        ∧ at? Example.loaded.cart_points_ (getDensePointIndex Example.loaded.cart_points_ 1)
          = some cp
        ∧ s'.cart_points_ = Example.loaded.cart_points_
        ∧ s'.sparse_solution_array_ = Example.loaded.sparse_solution_array_
        ∧ s'.joint_points_map_ = Example.loaded.joint_points_map_
        ∧ s'.calls = Example.loaded.calls ++ [GraphCall.removeTrajectory cp] :=
  ⟨by decide, by decide,
    C13_rejected_removal_aborts_before_erasing Example.acceptAll Example.rejecting
      Example.loaded 1 (by decide) (by decide) (by decide)⟩

/-! ## Edit API: insertion before the first sparse entry (C14) -/

/-- C14 (the code departs from the claim): when `ref_id` identifies the first table
entry `e0`, found at its stored dense position, and the strictly increasing table has
a second entry `e1`, the search with `skip_equal == false` still skips `e0` and returns
index `1`; `addTrajectoryPointBefore` then splices the waypoint in before the reference
and adds it to the graph with previous identifier `e0`'s (the reference itself, not
nil) and next identifier `e1`'s.  On the planner over `c0, c1, c2` with table `c0, c2`
the call `addTrajectoryPointBefore(1, c3)` logs `addTrajectory(c3, 1, 3)`. -/
theorem C14_insert_before_first_entry_brackets_after_it {G : Type} (R : RobotModel)
    (P : PlanningGraph G) (s : SparsePlanner G) (ref_id : ID) (cp : TrajectoryPt)
    (e0 e1 : SolutionEntry) (rest : SolutionArray)
    (htable : s.sparse_solution_array_ = e0 :: e1 :: rest)
    (hsorted : s.sparse_solution_array_.Pairwise (fun a b => a.1 < b.1))
    (hid : e0.2.1.id = ref_id)
    (hround : getDensePointIndex s.cart_points_ ref_id = e0.1) (hpos : 0 ≤ e0.1) :
    findNearestSparsePointIndex s.cart_points_ s.sparse_solution_array_ ref_id false = 1
    ∧ addTrajectoryPointBefore R P s ref_id cp
        = (if (callAddTrajectory P
                { s with cart_points_ := insertAt s.cart_points_ e0.1.toNat cp }
                cp ref_id e1.2.1.id).1
           then plan R P (callAddTrajectory P
                { s with cart_points_ := insertAt s.cart_points_ e0.1.toNat cp }
                cp ref_id e1.2.1.id).2
           else some (false, (callAddTrajectory P
                { s with cart_points_ := insertAt s.cart_points_ e0.1.toNat cp }
                cp ref_id e1.2.1.id).2))
    ∧ (addTrajectoryPointBefore Example.acceptAll Example.noPath Example.loaded 1
          Example.c3).map (fun r => (r.1, r.2.cart_points_, r.2.calls))
        = some (true, [Example.c3, Example.c0, Example.c1, Example.c2],
            [GraphCall.addTrajectory Example.c3 1 3, GraphCall.getShortestPath]) := by
  have hlt : e0.1 < e1.1 := by
    rw [htable] at hsorted
    exact (List.pairwise_cons.1 hsorted).1 e1 (List.mem_cons_self _ _)
  have hne : (e0.1 = INVALID_INDEX) = False := by
    simp only [INVALID_INDEX, eq_iff_iff, iff_false]; omega
  have hnear : findNearestSparsePointIndex s.cart_points_ s.sparse_solution_array_ ref_id false
      = 1 := by
    simp [findNearestSparsePointIndex, hround, hne, htable, findIf, hlt]
  refine ⟨hnear, ?_, by decide⟩
  unfold addTrajectoryPointBefore
  have h1 : ((1 : ℤ) = INVALID_INDEX) = False := by simp [INVALID_INDEX]
  have h0 : at? s.sparse_solution_array_ ((1 : ℤ) - 1) = some e0 := by
    simp [at?, htable]
  have h1' : at? s.sparse_solution_array_ (1 : ℤ) = some e1 := by
    simp [at?, htable]
  simp only [hnear, h1, if_false, one_ne_zero, h0, h1', Option.map_some', hround, hne, hid]

/-- C14 at a concrete planner: the reference `1` identifies the first table entry of
`loaded`. -/
theorem C14_insert_before_first_entry_witness :
    Example.loaded.sparse_solution_array_
        = (0, Example.c0, Example.jA) :: (2, Example.c2, Example.jB) :: []
    ∧ Example.loaded.sparse_solution_array_.Pairwise (fun a b => a.1 < b.1)
    ∧ getDensePointIndex Example.loaded.cart_points_ 1 = 0
    ∧ findNearestSparsePointIndex Example.loaded.cart_points_
        Example.loaded.sparse_solution_array_ 1 false = 1 :=
  ⟨rfl, by decide, by decide,
    (C14_insert_before_first_entry_brackets_after_it Example.acceptAll Example.noPath
      Example.loaded 1 Example.c3 (0, Example.c0, Example.jA) (2, Example.c2, Example.jB) []
      rfl (by decide) rfl (by decide) (by decide)).1⟩

/-! ## Edit API: insertion after the last sparse entry (C15) -/

/-- C15 (as stated it fails): on the planner over `c0, c1, c2` with table `c0, c2`, the
call `addTrajectoryPointAfter(3, c3)`, whose reference is the last table entry, returns
`false`, leaves the dense trajectory as it was and makes no graph call. -/
theorem C15_counterexample_insert_after_last_entry_aborts :
    Example.loaded.sparse_solution_array_.getLast? = some (2, Example.c2, Example.jB)
    ∧ Example.loaded.sparse_solution_array_.Pairwise (fun a b => a.1 < b.1)
    ∧ (∀ e ∈ Example.loaded.sparse_solution_array_, e.1 ≤ 2)
    ∧ (addTrajectoryPointAfter Example.acceptAll Example.noPath Example.loaded 3
          Example.c3).map (fun r => (r.1, r.2.cart_points_, r.2.calls))
        = some (false, [Example.c0, Example.c1, Example.c2], []) := by
  decide

/-- C15 (amended): when `ref_id` is the identifier of the last entry of the strictly
increasing table and that identifier is found at the entry's dense position, `addTrajectoryPointAfter` finds no
table entry with a greater dense position and returns `false` without any
out-of-range access; the planner state, with dense trajectory, table and call log, is
the one given. -/
theorem C15_insert_after_last_entry_is_refused {G : Type} (R : RobotModel)
    (P : PlanningGraph G) (s : SparsePlanner G) (ref_id : ID) (cp : TrajectoryPt)
    (e : SolutionEntry)
    (hlast : s.sparse_solution_array_.getLast? = some e)
    (hsorted : s.sparse_solution_array_.Pairwise (fun a b => a.1 < b.1))
    (hid : e.2.1.id = ref_id)
    (hround : getDensePointIndex s.cart_points_ e.2.1.id = e.1) :
    findNearestSparsePointIndex s.cart_points_ s.sparse_solution_array_ ref_id true
        = INVALID_INDEX
    ∧ addTrajectoryPointAfter R P s ref_id cp = some (false, s) := by
  rw [hid] at hround
  have hle : ∀ t ∈ s.sparse_solution_array_, t.1 ≤ e.1 := by
    obtain ⟨init, hinit⟩ : ∃ init, s.sparse_solution_array_ = init ++ [e] := by
      rcases List.eq_nil_or_concat s.sparse_solution_array_ with h | ⟨init, x, h⟩
      · rw [h] at hlast; simp at hlast
      · rw [h, List.concat_eq_append, List.getLast?_append] at hlast
        have hx : x = e := Option.some.inj hlast
        exact ⟨init, by rw [h, hx]; simp⟩
    intro t ht
    rw [hinit] at hsorted ht
    rcases List.mem_append.1 ht with h | h
    · exact le_of_lt ((List.pairwise_append.1 hsorted).2.2 t h e (by simp))
    · rw [List.mem_singleton.1 h]
  have hnone : findIf (fun t : SolutionEntry => decide (e.1 < t.1))
      s.sparse_solution_array_ = none := by
    apply findIf_eq_none
    intro t ht
    have := hle t ht
    simp only [decide_eq_false_iff_not, not_lt]
    exact this
  have hnear : findNearestSparsePointIndex s.cart_points_ s.sparse_solution_array_ ref_id true
      = INVALID_INDEX := by
    simp [findNearestSparsePointIndex, hround, hnone]
  refine ⟨hnear, ?_⟩
  unfold addTrajectoryPointAfter
  simp only [hnear, if_true]

/-- C15 (amended) at a concrete planner: reference `3` identifies the last table entry
of `loaded`. -/
theorem C15_insert_after_last_entry_witness :
    Example.loaded.sparse_solution_array_.getLast? = some (2, Example.c2, Example.jB)
    ∧ Example.loaded.sparse_solution_array_.Pairwise (fun a b => a.1 < b.1)
    ∧ getDensePointIndex Example.loaded.cart_points_ 3 = 2
    ∧ addTrajectoryPointAfter Example.acceptAll Example.noPath Example.loaded 3 Example.c3
        = some (false, Example.loaded) :=
  ⟨by decide, by decide, by decide,
    (C15_insert_after_last_entry_is_refused Example.acceptAll Example.noPath Example.loaded 3
      Example.c3 (2, Example.c2, Example.jB) (by decide) (by decide) rfl (by decide)).2⟩

/-! ## Round-trip consistency of the rebuilt table (C16) -/

/-- C16: after a successful `getSparseSolutionArray`, for every entry of the rebuilt
table `getDensePointIndex` of the entry's waypoint identifier is the entry's stored
dense position, and that position is a valid index of the dense trajectory. -/
theorem C16_rebuilt_entries_resolve_to_their_dense_position (cart_points_ : List TrajectoryPt)
    (shortest_path : Option (List JointTrajectoryPt)) (cart_map : CartesianMap)
    (old arr : SolutionArray)
    (h : getSparseSolutionArray cart_points_ shortest_path cart_map old = some (true, arr)) :
    ∀ e ∈ arr, getDensePointIndex cart_points_ e.2.1.id = e.1
      ∧ 0 ≤ e.1 ∧ e.1 < cart_points_.length := by
  unfold getSparseSolutionArray at h
  cases shortest_path with
  | none => simp at h
  | some jps =>
    simp only at h
    cases hw : getOrderedSparseCartesianArray cart_map with
    | none => rw [hw] at h; simp at h
    | some scp =>
      rw [hw] at h
      simp only at h
      by_cases hlen : jps.length ≠ scp.length
      · simp [hlen] at h
      · simp only [hlen, if_false] at h
        refine fillSolutionArray_entries cart_points_ scp 0
          (fun e => getDensePointIndex cart_points_ e.2.1.id = e.1
            ∧ 0 ≤ e.1 ∧ e.1 < cart_points_.length) ?_ jps [] arr h (by simp)
        intro cp jp hne
        rcases getDensePointIndex_cases cart_points_ cp.id with hinv | ⟨i, wp, hi, hwp, _⟩
        · exact absurd hinv hne
        · have hlt : i < cart_points_.length := by
            by_contra hcon
            rw [List.getElem?_eq_none (by omega)] at hwp
            simp at hwp
          refine ⟨rfl, ?_, ?_⟩
          · show 0 ≤ getDensePointIndex cart_points_ cp.id
            rw [hi]; omega
          · show getDensePointIndex cart_points_ cp.id < _
            rw [hi]; omega

/-- C16 at a concrete input: the rebuild over `c0, c1, c2` with the two-node map. -/
theorem C16_rebuilt_entries_witness :
    getSparseSolutionArray [Example.c0, Example.c1, Example.c2]
        (some [Example.jA, Example.jB]) Example.chainMap []
      = some (true, [(0, Example.c0, Example.jA), (0, Example.c0, Example.jB)])
    ∧ ∀ e ∈ [((0 : ℤ), Example.c0, Example.jA), (0, Example.c0, Example.jB)],
        getDensePointIndex [Example.c0, Example.c1, Example.c2] e.2.1.id = e.1
          ∧ 0 ≤ e.1 ∧ e.1 < ([Example.c0, Example.c1, Example.c2] : List TrajectoryPt).length :=
  ⟨by decide,
    C16_rebuilt_entries_resolve_to_their_dense_position [Example.c0, Example.c1, Example.c2]
      (some [Example.jA, Example.jB]) Example.chainMap []
      [(0, Example.c0, Example.jA), (0, Example.c0, Example.jB)] (by decide)⟩

/-! ## Bounded refinement (C17) -/

/-- C17: for every robot model, graph and planner state, the loop of `plan` (a total
function: it recurses on the attempts left, starting from `MAX_REPLANNING_ATTEMPTS`)
performs at most 100 table rebuilds, at most 100 validation passes and at most 100
promotions, counted on the instrumented loop `planTrace`, which returns what `planLoop`
returns; and when every nominal joint pose has `getDOF` coordinates (so that no
interpolation reads out of range), `plan` returns a result. -/
theorem C17_plan_is_bounded_by_the_retry_cap {G : Type} (R : RobotModel) (P : PlanningGraph G)
    (s : SparsePlanner G) :
    MAX_REPLANNING_ATTEMPTS = 100
    ∧ (planTrace R P MAX_REPLANNING_ATTEMPTS s).2 = planLoop R P MAX_REPLANNING_ATTEMPTS s
    ∧ plan R P s = (planTrace R P MAX_REPLANNING_ATTEMPTS s).2.map (fun r => (true, r.2))
    ∧ (planTrace R P MAX_REPLANNING_ATTEMPTS s).1.count PlanEvent.rebuild ≤ 100
    ∧ (planTrace R P MAX_REPLANNING_ATTEMPTS s).1.count PlanEvent.validation ≤ 100
    ∧ (planTrace R P MAX_REPLANNING_ATTEMPTS s).1.count PlanEvent.promotion ≤ 100
    ∧ ((∀ (j : JointTrajectoryPt) (seed : List ℚ),
          (R.getNominalJointPose j seed).length = R.getDOF) →
        ∃ r, plan R P s = some r) := by
  have hagree := planTrace_agrees R P MAX_REPLANNING_ATTEMPTS s
  have hcount := planTrace_counts R P MAX_REPLANNING_ATTEMPTS s
  refine ⟨rfl, hagree, by rw [hagree]; rfl, hcount.1, hcount.2.1, hcount.2.2, ?_⟩
  intro hR
  obtain ⟨r, hr⟩ := planLoop_defined R P hR MAX_REPLANNING_ATTEMPTS s
  exact ⟨(true, r.2), by simp [plan, hr]⟩

/-- C17 at a concrete planner: with the robot model `unitPose`, whose nominal poses all
have one coordinate, `plan` returns a result. -/
theorem C17_plan_is_bounded_witness :
    (∀ (j : JointTrajectoryPt) (seed : List ℚ),
        (Example.unitPose.getNominalJointPose j seed).length = Example.unitPose.getDOF)
    ∧ ∃ r, plan Example.unitPose Example.noPath Example.loaded = some r :=
  ⟨fun _ _ => rfl,
    (C17_plan_is_bounded_by_the_retry_cap Example.unitPose Example.noPath
      Example.loaded).2.2.2.2.2.2 (fun _ _ => rfl)⟩

/-! ## Edit API: dense splice (C18) -/

/-- C18: whenever `addTrajectoryPointAfter` returns `true`, the reference was found at a
dense index `i` and the new dense trajectory is `old[0..i] ++ [cp] ++ old[i+1..]`;
whenever `addTrajectoryPointBefore` returns `true`, it is
`old[0..i-1] ++ [cp] ++ old[i..]`; in both cases the length grows by one and the old
trajectory is a sublist of the new one (the old waypoints keep their order). -/
theorem C18_successful_insert_splices_next_to_reference {G : Type} (R : RobotModel)
    (P : PlanningGraph G) (s s' : SparsePlanner G) (ref_id : ID) (cp : TrajectoryPt) :
    (addTrajectoryPointAfter R P s ref_id cp = some (true, s') →
      ∃ i : ℕ, getDensePointIndex s.cart_points_ ref_id = (i : ℤ) ∧ i < s.cart_points_.length
        ∧ s'.cart_points_ = s.cart_points_.take (i + 1) ++ cp :: s.cart_points_.drop (i + 1)
        ∧ s'.cart_points_.length = s.cart_points_.length + 1
        ∧ s.cart_points_.Sublist s'.cart_points_)
    ∧ (addTrajectoryPointBefore R P s ref_id cp = some (true, s') →
      ∃ i : ℕ, getDensePointIndex s.cart_points_ ref_id = (i : ℤ) ∧ i < s.cart_points_.length
        ∧ s'.cart_points_ = s.cart_points_.take i ++ cp :: s.cart_points_.drop i
        ∧ s'.cart_points_.length = s.cart_points_.length + 1
        ∧ s.cart_points_.Sublist s'.cart_points_) := by
  constructor
  · intro h
    unfold addTrajectoryPointAfter at h
    simp only at h
    split at h
    · simp at h
    · split at h
      · rcases getDensePointIndex_cases s.cart_points_ ref_id with hinv | ⟨i, wp, hi, hwp, _⟩
        · simp [hinv] at h
        · have hlt : i < s.cart_points_.length := by
            by_contra hcon
            rw [List.getElem?_eq_none (by omega)] at hwp
            simp at hwp
          simp only [hi, natCast_ne_invalid, if_false] at h
          split at h
          · have hc := plan_cart_points R P _ _ h
            simp only [callAddTrajectory] at hc
            have hn : ((i : ℤ) + 1).toNat = i + 1 := by omega
            rw [hn] at hc
            have hf := insertAt_facts s.cart_points_ (i + 1) cp (by omega)
            refine ⟨i, hi, hlt, hc, ?_, ?_⟩
            · rw [hc]; exact hf.1
            · rw [hc]; exact hf.2
          · simp at h
      · simp at h
  · intro h
    unfold addTrajectoryPointBefore at h
    simp only at h
    split at h
    · simp at h
    · split at h
      · rcases getDensePointIndex_cases s.cart_points_ ref_id with hinv | ⟨i, wp, hi, hwp, _⟩
        · simp [hinv] at h
        · have hlt : i < s.cart_points_.length := by
            by_contra hcon
            rw [List.getElem?_eq_none (by omega)] at hwp
            simp at hwp
          simp only [hi, natCast_ne_invalid, if_false] at h
          split at h
          · have hc := plan_cart_points R P _ _ h
            simp only [callAddTrajectory, Int.toNat_ofNat] at hc
            have hf := insertAt_facts s.cart_points_ i cp (by omega)
            refine ⟨i, hi, hlt, hc, ?_, ?_⟩
            · rw [hc]; exact hf.1
            · rw [hc]; exact hf.2
          · simp at h
      · simp at h

/-- C18 at a concrete planner: `addTrajectoryPointAfter(1, c3)` on `loaded` returns
`true` with dense trajectory `c0, c3, c1, c2`. -/
theorem C18_successful_insert_witness :
    ∃ s', addTrajectoryPointAfter Example.acceptAll Example.noPath Example.loaded 1 Example.c3
        = some (true, s')
      ∧ s'.cart_points_ = [Example.c0, Example.c3, Example.c1, Example.c2]
      ∧ ∃ i : ℕ, getDensePointIndex Example.loaded.cart_points_ 1 = (i : ℤ)
        ∧ i < Example.loaded.cart_points_.length
        ∧ s'.cart_points_ = Example.loaded.cart_points_.take (i + 1)
            ++ Example.c3 :: Example.loaded.cart_points_.drop (i + 1)
        ∧ s'.cart_points_.length = Example.loaded.cart_points_.length + 1
        ∧ Example.loaded.cart_points_.Sublist s'.cart_points_ :=
  ⟨_, rfl, rfl,
    (C18_successful_insert_splices_next_to_reference Example.acceptAll Example.noPath
      Example.loaded _ 1 Example.c3).1 rfl⟩

/-! ## Promotion (C19) -/

/-- C19: when the validator reports `REPLAN (k, p)` on the planner's table, and that
table is strictly increasing in dense position and round-trip consistent with a dense
trajectory of pairwise distinct identifiers, the `REPLAN` case of `plan` calls
`addTrajectory` with the dense waypoint at position `p`, previous identifier that of
table entry `k - 1` and next identifier that of table entry `k`; `k` is not `0` (the
nil-previous branch is not taken) and no table entry has the identifier of that
waypoint. -/
theorem C19_promotion_adds_failed_waypoint_between_its_neighbours {G : Type} (R : RobotModel)
    (P : PlanningGraph G) (s : SparsePlanner G) (k p : Int) (jm : JointMap)
    (hreplan : interpolateSparseTrajectory R s.cart_points_ s.sparse_solution_array_
      = some (InterpolationResult.REPLAN k p, jm))
    (hsorted : s.sparse_solution_array_.Pairwise (fun a b => a.1 < b.1))
    (hround : ∀ e ∈ s.sparse_solution_array_,
      getDensePointIndex s.cart_points_ e.2.1.id = e.1)
    (hids : (s.cart_points_.map (fun q => q.id)).Nodup) :
    ∃ wp prev next, at? s.cart_points_ p = some wp
      ∧ at? s.sparse_solution_array_ (k - 1) = some prev
      ∧ at? s.sparse_solution_array_ k = some next
      ∧ k ≠ 0
      ∧ (∀ e ∈ s.sparse_solution_array_, e.2.1.id ≠ wp.id)
      ∧ caseREPLAN P s k p = some (callAddTrajectory P s wp prev.2.1.id next.2.1.id)
      ∧ (callAddTrajectory P s wp prev.2.1.id next.2.1.id).2.calls
          = s.calls ++ [GraphCall.addTrajectory wp prev.2.1.id next.2.1.id] := by
  obtain ⟨hk, prev, next, wp, hprev, hnext, hwp, hlo, hhi⟩ :=
    interpolateSparseTrajectory_replan R s.cart_points_ s.sparse_solution_array_ k p jm hreplan
  have hk0 : k ≠ 0 := by omega
  refine ⟨wp, prev, next, hwp, hprev, hnext, hk0, ?_, ?_, rfl⟩
  · intro e he hid
    obtain ⟨hp0, hp1, hpget⟩ := at?_bounds s.cart_points_ p wp hwp
    have hidx : getDensePointIndex s.cart_points_ wp.id = (p.toNat : ℤ) :=
      getDensePointIndex_of_nodup s.cart_points_ hids p.toNat wp hpget
    have hep : e.1 = p := by
      rw [← hround e he, hid, hidx]; omega
    obtain ⟨i, hi⟩ := List.getElem?_of_mem he
    have hati : at? s.sparse_solution_array_ (i : ℤ) = some e := by
      rw [at?_natCast]; exact hi
    by_cases hik : (i : ℤ) < k
    · have hle : e.1 ≤ prev.1 := by
        by_cases heq : (i : ℤ) = k - 1
        · rw [heq, hprev] at hati
          cases Option.some.inj hati
          exact le_refl _
        · exact le_of_lt (sorted_at _ hsorted _ _ e prev hati hprev (by omega))
      omega
    · have hle : next.1 ≤ e.1 := by
        by_cases heq : (i : ℤ) = k
        · rw [heq, hnext] at hati
          cases Option.some.inj hati
          exact le_refl _
        · exact le_of_lt (sorted_at _ hsorted _ _ next e hnext hati (by omega))
      omega
  · unfold caseREPLAN
    simp only [hwp, hnext, hprev, hk0, if_false]

/-- C19 at a concrete planner: on `validated` with the robot model `rejectSecond` the
validator reports `REPLAN (1, 1)`, and the add receives `c1` between `c0` and `c2`. -/
theorem C19_promotion_witness :
    interpolateSparseTrajectory Example.rejectSecond Example.validated.cart_points_
        Example.validated.sparse_solution_array_
      = some (InterpolationResult.REPLAN 1 1, [(1, Example.jA)])
    ∧ Example.validated.sparse_solution_array_.Pairwise (fun a b => a.1 < b.1)
    ∧ (∃ wp prev next, at? Example.validated.cart_points_ 1 = some wp
        ∧ at? Example.validated.sparse_solution_array_ (1 - 1) = some prev
        ∧ at? Example.validated.sparse_solution_array_ 1 = some next
        ∧ (1 : ℤ) ≠ 0
        ∧ (∀ e ∈ Example.validated.sparse_solution_array_, e.2.1.id ≠ wp.id)
        ∧ caseREPLAN Example.noPath Example.validated 1 1
            = some (callAddTrajectory Example.noPath Example.validated wp prev.2.1.id
                next.2.1.id)
        ∧ (callAddTrajectory Example.noPath Example.validated wp prev.2.1.id
              next.2.1.id).2.calls
            = Example.validated.calls ++ [GraphCall.addTrajectory wp prev.2.1.id next.2.1.id])
    ∧ (caseREPLAN Example.noPath Example.validated 1 1).map (fun a => a.2.calls)
        = some [GraphCall.getShortestPath, GraphCall.addTrajectory Example.c1 1 3] :=
  ⟨by decide!, by decide,
    C19_promotion_adds_failed_waypoint_between_its_neighbours Example.rejectSecond
      Example.noPath Example.validated 1 1 [(1, Example.jA)] (by decide!) (by decide)
      (by decide) (by decide),
    by decide⟩

/-! ## Joint-pose map after a successful validation (C20) -/

/-- C20: for a table with at least two entries, strictly increasing in dense position,
whose first entry has dense position `0`, whose last entry has dense position `n - 1`
(`n` the length of the dense trajectory) and whose entries hold the dense waypoints at
their stored positions: if `interpolateSparseTrajectory` returns `SUCCESS`, then
`getSolutionJointPoint` returns `true` exactly for the identifiers of the waypoints of
the dense trajectory (the map is rebuilt from empty, so nothing else is in it). -/
theorem C20_success_records_exactly_the_dense_waypoints (R : RobotModel)
    (cart_points_ : List TrajectoryPt) (table : SolutionArray) (jm : JointMap)
    (e0 eL : SolutionEntry)
    (htwo : 2 ≤ table.length)
    (hsorted : table.Pairwise (fun a b => a.1 < b.1))
    (hfirst : table.head? = some e0) (hfirst0 : e0.1 = 0)
    (hlast : table.getLast? = some eL) (hlastn : eL.1 = (cart_points_.length : ℤ) - 1)
    (href : ∀ e ∈ table, at? cart_points_ e.1 = some e.2.1)
    (hsuccess : interpolateSparseTrajectory R cart_points_ table
      = some (InterpolationResult.SUCCESS, jm)) :
    ∀ id : ID, (getSolutionJointPoint jm id).isSome = true ↔ ∃ wp ∈ cart_points_, wp.id = id := by
  intro id
  cases table with
  | nil => simp at htwo
  | cons a tail =>
    have ha : a = e0 := by simpa using hfirst
    subst ha
    have htail : tail ≠ [] := by
      intro h; subst h; simp at htwo
    have hL : lastEntry a tail = eL := by
      have := lastEntry_getLast? a tail
      rw [hlast] at this
      exact (Option.some.inj this).symm
    unfold interpolateSparseTrajectory at hsuccess
    have hkeys := interpolatePairs_keys R cart_points_ tail a 1 [] [] jm hsuccess hsorted href id
    rw [getSolutionJointPoint_isSome, hkeys, hL]
    constructor
    · rintro (h | ⟨_, q, wp, _, _, hq, hid⟩)
      · simp [JointMap.contains] at h
      · exact ⟨wp, at?_mem _ _ _ hq, hid⟩
    · rintro ⟨wp, hwp, hid⟩
      obtain ⟨i, hi⟩ := List.getElem?_of_mem hwp
      have hlt : i < cart_points_.length := (List.getElem?_eq_some_iff.1 hi).1
      refine Or.inr ⟨htail, (i : ℤ), wp, by omega, by omega, ?_, hid⟩
      rw [at?_natCast]; exact hi

/-- C20 at a concrete input: the table `c0, c2` over `c0, c1, c2` with a robot model that
accepts every pose. -/
theorem C20_success_records_witness :
    interpolateSparseTrajectory Example.unitPose [Example.c0, Example.c1, Example.c2]
        Example.evenTable
      = some (InterpolationResult.SUCCESS,
          [(1, Example.jA), (2, Example.jA), (3, Example.jA)])
    ∧ ∀ id : ID,
        (getSolutionJointPoint [(1, Example.jA), (2, Example.jA), (3, Example.jA)] id).isSome
            = true
          ↔ ∃ wp ∈ [Example.c0, Example.c1, Example.c2], wp.id = id :=
  ⟨by decide!,
    C20_success_records_exactly_the_dense_waypoints Example.unitPose
      [Example.c0, Example.c1, Example.c2] Example.evenTable
      [(1, Example.jA), (2, Example.jA), (3, Example.jA)]
      (0, Example.c0, Example.jA) (2, Example.c2, Example.jB)
      (by decide) (by decide) rfl rfl rfl (by decide) (by decide) (by decide!)⟩


end descartes_core
